import Mathlib

/-!
Shallow embedding of the quantization core of the `img_` repository
(`src/main.rs`): nearest-palette-color matching with an HSV tie-break,
error-diffusion dithering, and ordered (Bayer) dithering.

Modelling conventions:
* Rust `i32`/`i64`/`u32`/`u8` values are modelled as `ℤ` (or `ℕ`), with the
  fixed-width wrap-around made explicit (`wrap32`, `wrap64`, `% 2^32`,
  `% 256`) exactly where the source performs fixed-width arithmetic.
* Rust `f32`/`f64` quantities (HSV channels, kernel weights) are modelled as
  exact rationals `ℚ`; every finite floating-point value is a rational, and
  float-to-integer `as` casts are modelled by truncation toward zero
  (`ratTrunc`, saturating in `castF64toI32`) as in Rust semantics.
* Fallible operations (`.unwrap()` on an empty-palette minimum) are modelled
  with `Option`: `none` is the panic.
* The three parallel channel buffers `r_buf`/`g_buf`/`b_buf` of the source,
  which are always indexed and updated at the same index together, are
  modelled as a single row-major buffer of integer triples.
-/

/-- An RGB triple of (conceptually `i32`) channel values, as in the Rust
`(i32, i32, i32)` pixels. -/
abbrev Pix : Type := ℤ × ℤ × ℤ

/-- A kernel entry `(dx, dy, weight)` from the offsets configuration:
`(i32, i32, f64)` in the source, weight modelled as an exact rational. -/
abbrev KernelEntry : Type := ℤ × ℤ × ℚ

/-- Two's-complement wrap of an integer to the `i32` range
`[-2^31, 2^31)`: the value left in an `i32` by wrapping arithmetic. -/
def wrap32 (z : ℤ) : ℤ := (z + 2 ^ 31) % 2 ^ 32 - 2 ^ 31

/-- Two's-complement wrap of an integer to the `i64` range
`[-2^63, 2^63)`. -/
def wrap64 (z : ℤ) : ℤ := (z + 2 ^ 63) % 2 ^ 64 - 2 ^ 63

/-- Truncation of a rational toward zero, the rounding used by Rust's
float-to-integer `as` casts. -/
def ratTrunc (q : ℚ) : ℤ := if q < 0 then -⌊-q⌋ else ⌊q⌋

/-- Rust's `f64 as i32` cast: truncate toward zero, saturating at the
`i32` bounds. -/
def castF64toI32 (q : ℚ) : ℤ := max (-(2 ^ 31)) (min (2 ^ 31 - 1) (ratTrunc q))

/-- Rust's `%` on floats (`fmod`): `x - y * trunc(x / y)`, result carrying
the sign of the dividend. Used for the `% 6.0` in the red-max hue branch. -/
def rustFmod (x y : ℚ) : ℚ := x - y * (ratTrunc (x / y) : ℚ)

/-- Rust's `i32 as u8` cast: keep the low 8 bits, i.e. reduce the
two's-complement value modulo 256. -/
def u8cast (z : ℤ) : ℤ := z % 256

/-- `u8cast` applied to all three channels (the final narrowing of the
working buffers into the output `RgbImage`). -/
def u8cast3 (p : Pix) : Pix := (u8cast p.1, u8cast p.2.1, u8cast p.2.2)

/-- `Converter::idx`: `(y * self.width + x) as usize` computed in `u32`
arithmetic, hence reduced modulo `2^32`. -/
def idxU32 (w x y : ℕ) : ℕ := (y * w + x) % 2 ^ 32

/-- Normalized red channel `r as f32 / 255.0` of `rgb_to_hsv`. -/
def normR (p : Pix) : ℚ := (p.1 : ℚ) / 255

/-- Normalized green channel of `rgb_to_hsv`. -/
def normG (p : Pix) : ℚ := (p.2.1 : ℚ) / 255

/-- Normalized blue channel of `rgb_to_hsv`. -/
def normB (p : Pix) : ℚ := (p.2.2 : ℚ) / 255

/-- `max` of the three normalized channels (`r.max(g).max(b)`): the HSV
value channel. -/
def vMax (p : Pix) : ℚ := max (max (normR p) (normG p)) (normB p)

/-- `min` of the three normalized channels. -/
def vMin (p : Pix) : ℚ := min (min (normR p) (normG p)) (normB p)

/-- `delta = max - min` in `rgb_to_hsv`. -/
def vDelta (p : Pix) : ℚ := vMax p - vMin p

/-- `rgb_to_hsv` from the source: normalize the channels to `[0,1]`,
value = max, saturation = 0 when max = 0 else delta/max, and hue by the
per-sector formula (red-max sector uses the float `%` remainder; no
correction is applied to force a non-negative result). -/
def rgb_to_hsv (p : Pix) : ℚ × ℚ × ℚ :=
  let r := normR p
  let g := normG p
  let b := normB p
  let mx := vMax p
  let d := vDelta p
  let h : ℚ :=
    if d = 0 then 0
    else if mx = r then 60 * rustFmod ((g - b) / d) 6
    else if mx = g then 60 * ((b - r) / d + 2)
    else 60 * ((r - g) / d + 4)
  let s : ℚ := if mx = 0 then 0 else d / mx
  (h, s, mx)

/-- Squared RGB distance as computed in `find_closest_palette_index`:
differences and the sum of squares evaluated in `i32` arithmetic
(the final `as i64` widening does not change the value). -/
def dist32 (px q : Pix) : ℤ :=
  let dr := wrap32 (px.1 - q.1)
  let dg := wrap32 (px.2.1 - q.2.1)
  let db := wrap32 (px.2.2 - q.2.2)
  wrap32 (wrap32 (wrap32 (dr * dr) + wrap32 (dg * dg)) + wrap32 (db * db))

/-- Squared RGB distance as computed in `find_closest_palette_color`:
differences in `i32` (wrapping), then widened to `i64`, squared and
summed in `i64` arithmetic. -/
def dist64 (px q : Pix) : ℤ :=
  let dr := wrap32 (px.1 - q.1)
  let dg := wrap32 (px.2.1 - q.2.1)
  let db := wrap32 (px.2.2 - q.2.2)
  wrap64 (wrap64 (wrap64 (dr * dr) + wrap64 (dg * dg)) + wrap64 (db * db))

/-- The exact (unwrapped) squared Euclidean RGB distance of the spec,
`dr² + dg² + db²`. -/
def rgbDistSpec (px q : Pix) : ℤ :=
  (px.1 - q.1) ^ 2 + (px.2.1 - q.2.1) ^ 2 + (px.2.2 - q.2.2) ^ 2

/-- The HSV tie-break key of `find_closest_palette_color`: each absolute
HSV-channel difference is an `f32` cast with `as i64` (truncation toward
zero, i.e. `⌊|Δ|⌋` since the argument is non-negative), then squared and
summed in `i64` arithmetic. -/
def hsvKey (px q : Pix) : ℤ :=
  let a := rgb_to_hsv px
  let b := rgb_to_hsv q
  let dh := ⌊|a.1 - b.1|⌋
  let ds := ⌊|a.2.1 - b.2.1|⌋
  let dv := ⌊|a.2.2 - b.2.2|⌋
  wrap64 (wrap64 (wrap64 (dh * dh) + wrap64 (ds * ds)) + wrap64 (dv * dv))

/-- Rust `Iterator::min_by_key` semantics on a non-empty list folded from
the head: the current best is replaced only by a strictly smaller key, so
the first element attaining the minimal key wins. -/
def foldMinBy {α : Type} (f : α → ℤ) (a : α) (l : List α) : α :=
  l.foldl (fun best c => if f c < f best then c else best) a

/-- `Iterator::min_by_key` over a possibly-empty list: `none` iff empty
(the source's `.unwrap()` panics exactly then). -/
def minByKeyFirst {α : Type} (f : α → ℤ) : List α → Option α
  | [] => none
  | a :: l => some (foldMinBy f a l)

/-- `Iterator::min` on the list of distances (`none` iff the palette is
empty). Equal elements do not matter for the minimum value. -/
def listMin : List ℤ → Option ℤ
  | [] => none
  | a :: l => some (l.foldl min a)

/-- `Converter::find_closest_palette_index`: enumerate the palette, take
the entry minimizing the `i32` squared RGB distance (first minimum wins,
per `min_by_key`), and return its index; `none` models the `.unwrap()`
panic on an empty palette. -/
def find_closest_palette_index (pal : List Pix) (px : Pix) : Option ℕ :=
  (minByKeyFirst (fun ic => dist32 px ic.2) pal.enum).map (fun ic => ic.1)

/-- `min_distance` in `find_closest_palette_color`: the minimum of the
`i64` squared RGB distances over the palette; `none` iff the palette is
empty (the source's `.unwrap()` panics exactly then). -/
def minRgbDist (pal : List Pix) (px : Pix) : Option ℤ :=
  listMin (pal.map (fun q => dist64 px q))

/-- `candidates` in `find_closest_palette_color`: the palette entries, in
palette order, attaining the minimal squared RGB distance. -/
def rgbCandidates (pal : List Pix) (px : Pix) : List Pix :=
  match minRgbDist pal px with
  | none => []
  | some m => pal.filter (fun q => dist64 px q = m)

/-- `Converter::find_closest_palette_color`: compute the minimal `i64`
squared RGB distance over the palette (`none` on an empty palette models
the `.unwrap()` panic), collect all entries attaining it, return the sole
candidate if unique, and otherwise the head of the stable sort by
`hsvKey` — the first candidate, in palette order, with minimal HSV key. -/
def find_closest_palette_color (pal : List Pix) (px : Pix) : Option Pix :=
  match minRgbDist pal px with
  | none => none
  | some _ =>
    if (rgbCandidates pal px).length = 1 then (rgbCandidates pal px).head?
    else minByKeyFirst (fun q => hsvKey px q) (rgbCandidates pal px)

/-- A pixel buffer position read: out-of-range reads (which would panic in
the source and never occur under the invariants proved below) default to
black. -/
def getPix (b : List Pix) (i : ℕ) : Pix := b.getD i (0, 0, 0)

/-- Row-major construction of a `width × height` grid by the source's
`for y { for x { push }}` loops. -/
def mkGrid {γ : Type} (w h : ℕ) (f : ℕ → ℕ → γ) : List γ :=
  (List.range h).flatMap (fun y => (List.range w).map (fun x => f x y))

/-- The row-major double loop `for y in 0..h { for x in 0..w { ... } }`
threading a fallible per-pixel visit through the buffer state. -/
def passNested {β : Type} (visit : ℕ → ℕ → β → Option β) (w h : ℕ) (b : β) :
    Option β :=
  (List.range h).foldl
    (fun ob y => (List.range w).foldl (fun ob2 x => ob2.bind (visit x y)) ob)
    (some b)

/-- The same pass over the flattened pixel index `k = y*w + x`; proved
below to coincide with `passNested`. -/
def passFlat {β : Type} (visit : ℕ → ℕ → β → Option β) (w n : ℕ) (b : β) :
    Option β :=
  (List.range n).foldl (fun ob k => ob.bind (visit (k % w) (k / w))) (some b)

/-- Componentwise `i32` (wrapping) subtraction: the per-channel
quantization error `old - new` of `error_diffusion`. -/
def subPix32 (a b : Pix) : Pix :=
  (wrap32 (a.1 - b.1), wrap32 (a.2.1 - b.2.1), wrap32 (a.2.2 - b.2.2))

/-- The scaled error added to one neighbor channel:
`(error as f64 * factor) as i32`. -/
def diffuseAmount (err : ℤ) (factor : ℚ) : ℤ := castF64toI32 ((err : ℚ) * factor)

/-- One kernel entry of the diffusion loop: compute the target
`((x as i32 + dx) as u32, (y as i32 + dy) as u32)` (two's-complement cast
and wrap, i.e. reduction mod `2^32`), and if it passes the interior bounds
check `nx > 0 && nx < width-1 && ny > 0 && ny < height-1`, add the scaled
error to the target's channels with `i32` (wrapping) `+=`. -/
def diffuseSpread (w h x y : ℕ) (err : Pix) (b : List Pix) (o : KernelEntry) :
    List Pix :=
  let nx : ℤ := ((x : ℤ) + o.1) % 2 ^ 32
  let ny : ℤ := ((y : ℤ) + o.2.1) % 2 ^ 32
  if 0 < nx ∧ nx < (w : ℤ) - 1 ∧ 0 < ny ∧ ny < (h : ℤ) - 1 then
    let j := idxU32 w nx.toNat ny.toNat
    let p := getPix b j
    b.set j (wrap32 (p.1 + diffuseAmount err.1 o.2.2),
             wrap32 (p.2.1 + diffuseAmount err.2.1 o.2.2),
             wrap32 (p.2.2 + diffuseAmount err.2.2 o.2.2))
  else b

/-- One pixel visit of `error_diffusion`'s working loop: read the current
value, match it against the palette (`none` models the panic on an empty
palette), overwrite the position with the matched color, and run every
kernel entry. -/
def diffuseVisit (w h : ℕ) (pal : List Pix) (offs : List KernelEntry)
    (x y : ℕ) (b : List Pix) : Option (List Pix) :=
  let i := idxU32 w x y
  let old := getPix b i
  match find_closest_palette_color pal old with
  | none => none
  | some np =>
      some (offs.foldl (diffuseSpread w h x y (subPix32 old np)) (b.set i np))

/-- The working phase of `Converter::error_diffusion`: copy the original
image into the row-major working buffer and sweep it in row-major order. -/
def errorDiffusionWork (w h : ℕ) (img : ℕ → ℕ → Pix) (pal : List Pix)
    (offs : List KernelEntry) : Option (List Pix) :=
  passNested (diffuseVisit w h pal offs) w h (mkGrid w h img)

/-- The output-construction loop shared by both dither passes: for each
`(x, y)` read the working buffer at `idx(x, y)` and narrow each channel
with `as u8` (truncation modulo 256). -/
def buildOutput (w h : ℕ) (work : List Pix) : List Pix :=
  mkGrid w h (fun x y => u8cast3 (getPix work (idxU32 w x y)))

/-- `Converter::error_diffusion` end to end: working sweep, then the
truncating 8-bit narrowing into the converted image. -/
def error_diffusion (w h : ℕ) (img : ℕ → ℕ → Pix) (pal : List Pix)
    (offs : List KernelEntry) : Option (List Pix) :=
  (errorDiffusionWork w h img pal offs).map (buildOutput w h)

/-- The fixed 8×8 Bayer threshold table of `Converter::bayer`, flattened
row-major exactly as in the source. -/
def bayerMatrix : List ℤ :=
  [ 0, 32,  8, 40,  2, 34, 10, 42, 48, 16, 56, 24, 50, 18, 58, 26,
   12, 44,  4, 36, 14, 46,  6, 38, 60, 28, 52, 20, 62, 30, 54, 22,
    3, 35, 11, 43,  1, 33,  9, 41, 51, 19, 59, 27, 49, 17, 57, 25,
   15, 47,  7, 39, 13, 45,  5, 37, 63, 31, 55, 23, 61, 29, 53, 21]

/-- `bayer_idx`: `(y % 8) * 8 + (x % 8)` into the flattened table. -/
def bayer_idx (x y : ℕ) : ℕ := y % 8 * 8 + x % 8

/-- `rng`: `v.clamp(0, 255)`. -/
def rngClamp (v : ℤ) : ℤ := min 255 (max 0 v)

/-- The per-channel threshold adjustment of `bayer`:
`rng(channel + matrix_value - 32)` with `i32` (wrapping) arithmetic. -/
def bayerAdjust (c m : ℤ) : ℤ := rngClamp (wrap32 (wrap32 (c + m) - 32))

/-- One pixel visit of `bayer`'s loop: read the buffer at this position,
adjust each channel by the tiled matrix value, match the adjusted triple
against the palette, and write the matched color back at the same
position. -/
def bayerVisit (w : ℕ) (pal : List Pix) (x y : ℕ) (b : List Pix) :
    Option (List Pix) :=
  let m := bayerMatrix.getD (bayer_idx x y) 0
  let i := idxU32 w x y
  let p := getPix b i
  match find_closest_palette_color pal
      (bayerAdjust p.1 m, bayerAdjust p.2.1 m, bayerAdjust p.2.2 m) with
  | none => none
  | some c => some (b.set i c)

/-- The working phase of `Converter::bayer`. -/
def bayerWork (w h : ℕ) (img : ℕ → ℕ → Pix) (pal : List Pix) :
    Option (List Pix) :=
  passNested (fun x y b => bayerVisit w pal x y b) w h (mkGrid w h img)

/-- `Converter::bayer` end to end: working sweep, then the truncating
8-bit narrowing into the converted image. -/
def bayer (w h : ℕ) (img : ℕ → ℕ → Pix) (pal : List Pix) :
    Option (List Pix) :=
  (bayerWork w h img pal).map (buildOutput w h)

lemma foldl_ext_mem {α β : Type} (f g : β → α → β) (l : List α)
    (h : ∀ b a, a ∈ l → f b a = g b a) : ∀ b, l.foldl f b = l.foldl g b := by
  induction l with
  | nil => intro b; rfl
  | cons c t ih =>
    intro b
    show List.foldl f (f b c) t = List.foldl g (g b c) t
    rw [h b c (List.mem_cons_self c t)]
    exact ih (fun b2 a ha => h b2 a (List.mem_cons_of_mem c ha)) (g b c)

lemma getD_set_self (l : List Pix) (i : ℕ) (v : Pix) (h : i < l.length) :
    (l.set i v).getD i (0, 0, 0) = v := by
  rw [List.getD_eq_getElem?_getD, List.getElem?_set_self h]
  rfl

lemma getD_set_ne (l : List Pix) (i j : ℕ) (v : Pix) (h : j ≠ i) :
    (l.set j v).getD i (0, 0, 0) = l.getD i (0, 0, 0) := by
  rw [List.getD_eq_getElem?_getD, List.getElem?_set_ne h,
    ← List.getD_eq_getElem?_getD]

lemma getPix_set_self (l : List Pix) (i : ℕ) (v : Pix) (h : i < l.length) :
    getPix (l.set i v) i = v := getD_set_self l i v h

lemma getPix_set_ne (l : List Pix) (i j : ℕ) (v : Pix) (h : j ≠ i) :
    getPix (l.set j v) i = getPix l i := getD_set_ne l i j v h

lemma rowmajor_lt {w h x y : ℕ} (hx : x < w) (hy : y < h) :
    y * w + x < w * h := by
  calc y * w + x < y * w + w := by omega
  _ = (y + 1) * w := by ring
  _ ≤ h * w := Nat.mul_le_mul_right w hy
  _ = w * h := Nat.mul_comm h w

lemma rowmajor_mod {w x y : ℕ} (hx : x < w) : (y * w + x) % w = x := by
  rw [Nat.mul_comm y w, Nat.mul_add_mod, Nat.mod_eq_of_lt hx]

lemma rowmajor_div {w x y : ℕ} (hx : x < w) : (y * w + x) / w = y := by
  rw [Nat.mul_comm y w, Nat.mul_add_div (by omega : 0 < w),
    Nat.div_eq_of_lt hx, Nat.add_zero]

lemma idxU32_eq {w h x y : ℕ} (hx : x < w) (hy : y < h)
    (hwh : w * h ≤ 2 ^ 32) : idxU32 w x y = y * w + x := by
  unfold idxU32
  exact Nat.mod_eq_of_lt (lt_of_lt_of_le (rowmajor_lt hx hy) hwh)

lemma mkGrid_eq_map {γ : Type} (w : ℕ) (f : ℕ → ℕ → γ) : ∀ h : ℕ,
    mkGrid w h f = (List.range (w * h)).map (fun k => f (k % w) (k / w)) := by
  intro h
  induction h with
  | zero => simp [mkGrid]
  | succ n ih =>
    have hl : mkGrid w (n + 1) f
        = mkGrid w n f ++ (List.range w).map (fun x => f x n) := by
      unfold mkGrid
      rw [List.range_succ, List.flatMap_append]
      simp
    rw [hl, ih, Nat.mul_succ, List.range_add, List.map_append, List.map_map]
    have hr : (List.range w).map ((fun k => f (k % w) (k / w)) ∘ (w * n + ·))
        = (List.range w).map (fun x => f x n) := by
      apply List.map_congr_left
      intro x hx
      have hxw : x < w := List.mem_range.mp hx
      show f ((w * n + x) % w) ((w * n + x) / w) = f x n
      rw [Nat.mul_add_mod, Nat.mod_eq_of_lt hxw,
        Nat.mul_add_div (by omega : 0 < w), Nat.div_eq_of_lt hxw, Nat.add_zero]
    rw [hr]

lemma mkGrid_length {γ : Type} (w h : ℕ) (f : ℕ → ℕ → γ) :
    (mkGrid w h f).length = w * h := by
  rw [mkGrid_eq_map]
  simp

lemma mkGrid_getD {γ : Type} (w h k : ℕ) (f : ℕ → ℕ → γ) (d : γ)
    (hk : k < w * h) : (mkGrid w h f).getD k d = f (k % w) (k / w) := by
  rw [mkGrid_eq_map]
  have hk2 : k < ((List.range (w * h)).map (fun k => f (k % w) (k / w))).length := by
    simpa using hk
  rw [List.getD_eq_getElem _ _ hk2]
  simp

lemma mkGrid_getD_xy {γ : Type} (w h x y : ℕ) (f : ℕ → ℕ → γ) (d : γ)
    (hx : x < w) (hy : y < h) : (mkGrid w h f).getD (y * w + x) d = f x y := by
  rw [mkGrid_getD w h _ f d (rowmajor_lt hx hy), rowmajor_mod hx, rowmajor_div hx]

lemma getPix_mkGrid (w h x y : ℕ) (f : ℕ → ℕ → Pix) (hx : x < w)
    (hy : y < h) : getPix (mkGrid w h f) (y * w + x) = f x y :=
  mkGrid_getD_xy w h x y f (0, 0, 0) hx hy

lemma passFlat_succ {β : Type} (visit : ℕ → ℕ → β → Option β) (w n : ℕ)
    (b : β) : passFlat visit w (n + 1) b
      = (passFlat visit w n b).bind (visit (n % w) (n / w)) := by
  unfold passFlat
  rw [List.range_succ, List.foldl_append]
  rfl

lemma foldl_bind_none {β : Type} (vf : ℕ → β → Option β) (l : List ℕ) :
    l.foldl (fun ob k => ob.bind (vf k)) none = none := by
  induction l with
  | nil => rfl
  | cons c t ih => simpa using ih

lemma passNested_eq {β : Type} (visit : ℕ → ℕ → β → Option β) (w : ℕ)
    (b : β) : ∀ h : ℕ, passNested visit w h b = passFlat visit w (w * h) b := by
  intro h
  induction h with
  | zero => rfl
  | succ n ih =>
    have hl : passNested visit w (n + 1) b
        = (List.range w).foldl (fun ob2 x => ob2.bind (visit x n))
            (passNested visit w n b) := by
      unfold passNested
      rw [List.range_succ, List.foldl_append]
      rfl
    have hr : passFlat visit w (w * (n + 1)) b
        = ((List.range w).map (w * n + ·)).foldl
            (fun ob k => ob.bind (visit (k % w) (k / w)))
            (passFlat visit w (w * n) b) := by
      unfold passFlat
      rw [Nat.mul_succ, List.range_add, List.foldl_append]
    rw [hl, hr, List.foldl_map, ih]
    apply foldl_ext_mem
    intro ob x hx
    have hxw : x < w := List.mem_range.mp hx
    rw [Nat.mul_add_mod, Nat.mod_eq_of_lt hxw,
      Nat.mul_add_div (by omega : 0 < w), Nat.div_eq_of_lt hxw, Nat.add_zero]

/-- A channel value in the `u8` range, as supplied by the image decoder
and the palette file. -/
abbrev chanOk (z : ℤ) : Prop := 0 ≤ z ∧ z ≤ 255

/-- All three channels in the `u8` range. -/
abbrev pixOk (p : Pix) : Prop := chanOk p.1 ∧ chanOk p.2.1 ∧ chanOk p.2.2

/-- The color returned by a successful `find_closest_palette_color`
(defaulting to black in the unreachable empty-palette case). -/
def findColorD (pal : List Pix) (px : Pix) : Pix :=
  (find_closest_palette_color pal px).getD (0, 0, 0)

/-- The color written by `bayer` at a pixel whose original value is `p`
and whose coordinates are `(x, y)`: it depends on the coordinates only
through `(x mod 8, y mod 8)`. -/
def bayerPixel (pal : List Pix) (p : Pix) (x y : ℕ) : Pix :=
  let m := bayerMatrix.getD (bayer_idx x y) 0
  findColorD pal (bayerAdjust p.1 m, bayerAdjust p.2.1 m, bayerAdjust p.2.2 m)

lemma wrap32_eq {z : ℤ} (h1 : -(2 ^ 31) ≤ z) (h2 : z < 2 ^ 31) :
    wrap32 z = z := by
  have h3 : (0 : ℤ) ≤ z + 2 ^ 31 := by linarith
  have h4 : z + 2 ^ 31 < 2 ^ 32 := by linarith
  unfold wrap32
  rw [Int.emod_eq_of_lt h3 h4]
  ring

lemma wrap64_eq {z : ℤ} (h1 : -(2 ^ 63) ≤ z) (h2 : z < 2 ^ 63) :
    wrap64 z = z := by
  have h3 : (0 : ℤ) ≤ z + 2 ^ 63 := by linarith
  have h4 : z + 2 ^ 63 < 2 ^ 64 := by linarith
  unfold wrap64
  rw [Int.emod_eq_of_lt h3 h4]
  ring

lemma u8cast_eq {z : ℤ} (h1 : 0 ≤ z) (h2 : z ≤ 255) : u8cast z = z :=
  Int.emod_eq_of_lt h1 (by linarith)

lemma u8cast3_eq {p : Pix} (h : pixOk p) : u8cast3 p = p := by
  obtain ⟨⟨h1, h2⟩, ⟨h3, h4⟩, h5, h6⟩ := h
  unfold u8cast3
  rw [u8cast_eq h1 h2, u8cast_eq h3 h4, u8cast_eq h5 h6]

lemma ratTrunc_nonneg {q : ℚ} (h : 0 ≤ q) : ratTrunc q = ⌊q⌋ := by
  unfold ratTrunc
  rw [if_neg (not_lt.mpr h)]

lemma castF64toI32_eq {q : ℚ} (h1 : -(2 ^ 31) ≤ ratTrunc q)
    (h2 : ratTrunc q ≤ 2 ^ 31 - 1) : castF64toI32 q = ratTrunc q := by
  unfold castF64toI32
  rw [min_eq_right h2, max_eq_right h1]

lemma foldMinBy_le_head {α : Type} (f : α → ℤ) (l : List α) :
    ∀ a : α, f (foldMinBy f a l) ≤ f a := by
  induction l with
  | nil => intro a; exact le_refl _
  | cons c t ih =>
    intro a
    show f (foldMinBy f (if f c < f a then c else a) t) ≤ f a
    refine le_trans (ih _) ?_
    by_cases hc : f c < f a
    · rw [if_pos hc]; exact le_of_lt hc
    · rw [if_neg hc]

lemma foldMinBy_le {α : Type} (f : α → ℤ) (l : List α) :
    ∀ a : α, ∀ b : α, b ∈ l → f (foldMinBy f a l) ≤ f b := by
  induction l with
  | nil => intro a b hb; cases hb
  | cons c t ih =>
    intro a b hb
    have hstep : foldMinBy f a (c :: t) = foldMinBy f (if f c < f a then c else a) t := rfl
    rcases List.mem_cons.mp hb with hbc | hbt
    · subst hbc
      rw [hstep]
      refine le_trans (foldMinBy_le_head f t _) ?_
      by_cases hc : f b < f a
      · rw [if_pos hc]
      · rw [if_neg hc]; exact not_lt.mp hc
    · rw [hstep]; exact ih _ b hbt

lemma foldMinBy_decomp {α : Type} (f : α → ℤ) (l : List α) :
    ∀ a : α, ∃ p s : List α, a :: l = p ++ foldMinBy f a l :: s ∧
      ∀ x ∈ p, f (foldMinBy f a l) < f x := by
  induction l with
  | nil =>
    intro a
    exact ⟨[], [], rfl, by intro x hx; cases hx⟩
  | cons c t ih =>
    intro a
    have hstep : foldMinBy f a (c :: t) = foldMinBy f (if f c < f a then c else a) t := rfl
    by_cases hc : f c < f a
    · obtain ⟨p', s', hdec, hmin⟩ := ih c
      rw [if_pos hc] at hstep
      refine ⟨a :: p', s', ?_, ?_⟩
      · rw [hstep, List.cons_append, ← hdec]
      · intro x hx
        rcases List.mem_cons.mp hx with hxa | hxp
        · subst hxa
          rw [hstep]
          exact lt_of_le_of_lt (foldMinBy_le_head f t c) hc
        · rw [hstep]; exact hmin x hxp
    · obtain ⟨p', s', hdec, hmin⟩ := ih a
      rw [if_neg hc] at hstep
      rcases p' with _ | ⟨q, p''⟩
      · simp only [List.nil_append] at hdec
        refine ⟨[], c :: t, ?_, by intro x hx; cases hx⟩
        have ha : foldMinBy f a t = a := ((List.cons.injEq _ _ _ _).mp hdec).1.symm
        rw [hstep, ha]
        rfl
      · have hqa : q = a ∧ t = p'' ++ foldMinBy f a t :: s' := by
          have := hdec
          rw [List.cons_append] at this
          exact ⟨((List.cons.injEq _ _ _ _).mp this).1.symm,
                 ((List.cons.injEq _ _ _ _).mp this).2⟩

        obtain ⟨hqa1, hqa2⟩ := hqa
        refine ⟨a :: c :: p'', s', ?_, ?_⟩
        · rw [hstep, List.cons_append, List.cons_append, ← hqa2]
        · intro x hx
          have hfa : f (foldMinBy f a t) < f a := by
            have : a ∈ q :: p'' := by rw [hqa1]; exact List.mem_cons_self _ _
            exact hqa1 ▸ hmin q (List.mem_cons_self _ _)
          rcases List.mem_cons.mp hx with hxa | hx2
          · subst hxa; rw [hstep]; exact hfa
          rcases List.mem_cons.mp hx2 with hxc | hxp
          · subst hxc
            rw [hstep]
            exact lt_of_lt_of_le hfa (not_lt.mp hc)
          · rw [hstep]; exact hmin x (List.mem_cons_of_mem _ hxp)

lemma foldMinBy_mem {α : Type} (f : α → ℤ) (l : List α) (a : α) :
    foldMinBy f a l ∈ a :: l := by
  obtain ⟨p, s, hdec, _⟩ := foldMinBy_decomp f l a
  rw [hdec]
  exact List.mem_append_right p (List.mem_cons_self _ _)

lemma minByKeyFirst_none {α : Type} (f : α → ℤ) (l : List α) :
    minByKeyFirst f l = none ↔ l = [] := by
  cases l with
  | nil => simp [minByKeyFirst]
  | cons a t => simp [minByKeyFirst]

lemma minByKeyFirst_mem {α : Type} (f : α → ℤ) (l : List α) (r : α)
    (h : minByKeyFirst f l = some r) : r ∈ l := by
  cases l with
  | nil => cases h
  | cons a t =>
    have hr : r = foldMinBy f a t := by
      have := h
      simp only [minByKeyFirst, Option.some.injEq] at this
      exact this.symm
    rw [hr]
    exact foldMinBy_mem f t a

lemma minByKeyFirst_min {α : Type} (f : α → ℤ) (l : List α) (r : α)
    (h : minByKeyFirst f l = some r) : ∀ b ∈ l, f r ≤ f b := by
  cases l with
  | nil => cases h
  | cons a t =>
    have hr : r = foldMinBy f a t := by
      have := h
      simp only [minByKeyFirst, Option.some.injEq] at this
      exact this.symm
    intro b hb
    rcases List.mem_cons.mp hb with h1 | h2
    · subst h1; rw [hr]; exact foldMinBy_le_head f t b
    · rw [hr]; exact foldMinBy_le f t a b h2

lemma minByKeyFirst_first {α : Type} (f : α → ℤ) (l : List α) (r : α)
    (h : minByKeyFirst f l = some r) :
    ∃ p s : List α, l = p ++ r :: s ∧ ∀ x ∈ p, f r < f x := by
  cases l with
  | nil => cases h
  | cons a t =>
    have hr : r = foldMinBy f a t := by
      have := h
      simp only [minByKeyFirst, Option.some.injEq] at this
      exact this.symm
    obtain ⟨p, s, hdec, hmin⟩ := foldMinBy_decomp f t a
    exact ⟨p, s, by rw [hr, ← hdec], by rw [hr]; exact hmin⟩

lemma listMin_foldl_le_init (l : List ℤ) : ∀ a : ℤ, l.foldl min a ≤ a := by
  induction l with
  | nil => intro a; exact le_refl a
  | cons c t ih =>
    intro a
    exact le_trans (ih (min a c)) (min_le_left a c)

lemma listMin_foldl_le (l : List ℤ) : ∀ a x : ℤ, x ∈ l → l.foldl min a ≤ x := by
  induction l with
  | nil => intro a x hx; cases hx
  | cons c t ih =>
    intro a x hx
    rcases List.mem_cons.mp hx with h1 | h2
    · subst h1
      exact le_trans (listMin_foldl_le_init t (min a x)) (min_le_right a x)
    · exact ih (min a c) x h2

lemma listMin_foldl_mem (l : List ℤ) : ∀ a : ℤ, l.foldl min a ∈ a :: l := by
  induction l with
  | nil => intro a; exact List.mem_cons_self a []
  | cons c t ih =>
    intro a
    show List.foldl min (min a c) t ∈ a :: c :: t
    have h := ih (min a c)
    rcases List.mem_cons.mp h with h1 | h2
    · rw [h1]
      rcases min_choice a c with h3 | h3
      · rw [h3]; exact List.mem_cons_self a _
      · rw [h3]; exact List.mem_cons_of_mem a (List.mem_cons_self c t)
    · exact List.mem_cons_of_mem a (List.mem_cons_of_mem c h2)

lemma listMin_none (l : List ℤ) : listMin l = none ↔ l = [] := by
  cases l with
  | nil => simp [listMin]
  | cons a t => simp [listMin]

lemma listMin_le (l : List ℤ) (m : ℤ) (h : listMin l = some m) :
    ∀ x ∈ l, m ≤ x := by
  cases l with
  | nil => cases h
  | cons a t =>
    have hm : m = t.foldl min a := by
      have := h
      simp only [listMin, Option.some.injEq] at this
      exact this.symm
    intro x hx
    rcases List.mem_cons.mp hx with h1 | h2
    · subst h1; rw [hm]; exact listMin_foldl_le_init t x
    · rw [hm]; exact listMin_foldl_le t a x h2

lemma listMin_mem (l : List ℤ) (m : ℤ) (h : listMin l = some m) : m ∈ l := by
  cases l with
  | nil => cases h
  | cons a t =>
    have hm : m = t.foldl min a := by
      have := h
      simp only [listMin, Option.some.injEq] at this
      exact this.symm
    rw [hm]
    exact listMin_foldl_mem t a

lemma minRgbDist_none (pal : List Pix) (px : Pix) :
    minRgbDist pal px = none ↔ pal = [] := by
  unfold minRgbDist
  rw [listMin_none]
  exact List.map_eq_nil_iff

lemma rgbCandidates_sub (pal : List Pix) (px : Pix) :
    ∀ c ∈ rgbCandidates pal px, c ∈ pal := by
  intro c hc
  unfold rgbCandidates at hc
  cases hmin : minRgbDist pal px with
  | none => rw [hmin] at hc; cases hc
  | some m =>
    rw [hmin] at hc
    exact (List.mem_filter.mp hc).1

lemma rgbCandidates_dist (pal : List Pix) (px : Pix) (m : ℤ)
    (hmin : minRgbDist pal px = some m) :
    ∀ c ∈ rgbCandidates pal px, dist64 px c = m := by
  intro c hc
  unfold rgbCandidates at hc
  rw [hmin] at hc
  have := (List.mem_filter.mp hc).2
  exact of_decide_eq_true this

lemma rgbCandidates_nonempty (pal : List Pix) (px : Pix) (m : ℤ)
    (hmin : minRgbDist pal px = some m) : rgbCandidates pal px ≠ [] := by
  have hm : m ∈ pal.map (fun q => dist64 px q) := listMin_mem _ m hmin
  obtain ⟨q, hq, hdq⟩ := List.mem_map.mp hm
  have : q ∈ rgbCandidates pal px := by
    unfold rgbCandidates
    rw [hmin]
    exact List.mem_filter.mpr ⟨hq, decide_eq_true hdq⟩
  intro hnil
  rw [hnil] at this
  cases this

lemma find_color_none (pal : List Pix) (px : Pix) :
    find_closest_palette_color pal px = none ↔ pal = [] := by
  unfold find_closest_palette_color
  cases hmin : minRgbDist pal px with
  | none => simpa using (minRgbDist_none pal px).mp hmin
  | some m =>
    have hne : rgbCandidates pal px ≠ [] := rgbCandidates_nonempty pal px m hmin
    have hpal : pal ≠ [] := by
      intro hp
      rw [(minRgbDist_none pal px).mpr hp] at hmin
      cases hmin
    constructor
    · intro hcontra
      by_cases hlen : (rgbCandidates pal px).length = 1
      · rw [if_pos hlen] at hcontra
        cases hcand : rgbCandidates pal px with
        | nil => exact absurd hcand hne
        | cons a t => rw [hcand] at hcontra; cases hcontra
      · rw [if_neg hlen] at hcontra
        exact absurd ((minByKeyFirst_none _ _).mp hcontra) hne
    · intro hp
      exact absurd hp hpal

lemma find_color_mem_cand (pal : List Pix) (px : Pix) (c : Pix)
    (h : find_closest_palette_color pal px = some c) :
    c ∈ rgbCandidates pal px := by
  unfold find_closest_palette_color at h
  cases hmin : minRgbDist pal px with
  | none => rw [hmin] at h; cases h
  | some m =>
    rw [hmin] at h
    by_cases hlen : (rgbCandidates pal px).length = 1
    · rw [if_pos hlen] at h
      exact List.mem_of_mem_head? h
    · rw [if_neg hlen] at h
      exact minByKeyFirst_mem _ _ c h

lemma find_color_mem (pal : List Pix) (px : Pix) (c : Pix)
    (h : find_closest_palette_color pal px = some c) : c ∈ pal :=
  rgbCandidates_sub pal px c (find_color_mem_cand pal px c h)

lemma find_color_hsv_min (pal : List Pix) (px : Pix) (c : Pix)
    (h : find_closest_palette_color pal px = some c) :
    ∀ q ∈ rgbCandidates pal px, hsvKey px c ≤ hsvKey px q := by
  unfold find_closest_palette_color at h
  cases hmin : minRgbDist pal px with
  | none => rw [hmin] at h; cases h
  | some m =>
    rw [hmin] at h
    by_cases hlen : (rgbCandidates pal px).length = 1
    · rw [if_pos hlen] at h
      intro q hq
      cases hcand : rgbCandidates pal px with
      | nil => rw [hcand] at hq; cases hq
      | cons a t =>
        have ht : t = [] := by
          rw [hcand] at hlen
          simpa using List.length_eq_zero.mp (by simpa using hlen)
        rw [hcand, ht] at hq h
        have hca : c = a := by
          simp only [List.head?] at h
          exact (Option.some.injEq _ _ ▸ h).symm ▸ rfl
        rcases List.mem_singleton.mp hq with rfl
        rw [hca]
    · rw [if_neg hlen] at h
      exact minByKeyFirst_min _ _ c h

lemma find_color_first (pal : List Pix) (px : Pix) (c : Pix)
    (h : find_closest_palette_color pal px = some c) :
    ∃ p s : List Pix, rgbCandidates pal px = p ++ c :: s ∧
      ∀ x ∈ p, hsvKey px c < hsvKey px x := by
  unfold find_closest_palette_color at h
  cases hmin : minRgbDist pal px with
  | none => rw [hmin] at h; cases h
  | some m =>
    rw [hmin] at h
    by_cases hlen : (rgbCandidates pal px).length = 1
    · rw [if_pos hlen] at h
      cases hcand : rgbCandidates pal px with
      | nil => rw [hcand] at h; cases h
      | cons a t =>
        have hca : a = c := by
          rw [hcand] at h
          simpa [List.head?] using h
        refine ⟨[], t, ?_, by intro x hx; cases hx⟩
        rw [hca, List.nil_append]
    · rw [if_neg hlen] at h
      exact minByKeyFirst_first _ _ c h

lemma getD_append_cons {α : Type} (p : List α) (r : α) (s : List α) (d : α) :
    (p ++ r :: s).getD p.length d = r := by
  induction p with
  | nil => rfl
  | cons a t ih => simpa using ih

lemma getD_append_left {α : Type} (p s : List α) (j : ℕ) (d : α)
    (h : j < p.length) : (p ++ s).getD j d = p.getD j d := by
  rw [List.getD_eq_getElem?_getD, List.getD_eq_getElem?_getD,
    List.getElem?_append_left h]

lemma find_index_none (pal : List Pix) (px : Pix) :
    find_closest_palette_index pal px = none ↔ pal = [] := by
  unfold find_closest_palette_index
  rw [Option.map_eq_none', minByKeyFirst_none]
  constructor
  · intro h
    cases pal with
    | nil => rfl
    | cons a t => cases h
  · intro h; rw [h]; rfl

lemma enum_getD (pal : List Pix) (j : ℕ) (hj : j < pal.length) :
    pal.enum.getD j (0, (0, 0, 0)) = (j, pal.getD j (0, 0, 0)) := by
  have hj2 : j < pal.enum.length := by rw [List.enum_length]; exact hj
  rw [List.getD_eq_getElem _ _ hj2, List.getD_eq_getElem _ _ hj,
    List.getElem_enum]

lemma find_index_spec (pal : List Pix) (px : Pix) (i : ℕ)
    (h : find_closest_palette_index pal px = some i) :
    i < pal.length ∧
      (∀ j, j < pal.length →
        dist32 px (pal.getD i (0, 0, 0)) ≤ dist32 px (pal.getD j (0, 0, 0))) ∧
      (∀ j, j < i →
        dist32 px (pal.getD i (0, 0, 0)) < dist32 px (pal.getD j (0, 0, 0))) := by
  unfold find_closest_palette_index at h
  rw [Option.map_eq_some'] at h
  obtain ⟨r, hr, hri⟩ := h
  obtain ⟨p, s, hdec, hlt⟩ := minByKeyFirst_first _ _ r hr
  have hlenp : p.length < pal.length := by
    have : pal.enum.length = p.length + (s.length + 1) := by
      rw [hdec]; simp
    rw [List.enum_length] at this
    omega
  have hre : r = (p.length, pal.getD p.length (0, 0, 0)) := by
    have h1 : pal.enum.getD p.length (0, (0, 0, 0)) = r := by
      rw [hdec]; exact getD_append_cons p r s _
    rw [← h1, enum_getD pal p.length hlenp]
  have hip : i = p.length := by rw [← hri, hre]
  subst hip
  refine ⟨hlenp, ?_, ?_⟩
  · intro j hj
    have hj2 : j < pal.enum.length := by rw [List.enum_length]; exact hj
    have hmem : pal.enum.getD j (0, (0, 0, 0)) ∈ pal.enum := by
      rw [List.getD_eq_getElem _ _ hj2]; exact List.getElem_mem hj2
    have := minByKeyFirst_min _ _ r hr _ hmem
    rw [enum_getD pal j hj] at this
    rw [hre] at this
    exact this
  · intro j hj
    have hj2 : j < pal.length := lt_trans hj hlenp
    have hpj : (p ++ r :: s).getD j (0, (0, 0, 0)) = p.getD j (0, (0, 0, 0)) :=
      getD_append_left p (r :: s) j _ hj
    have hmemp : p.getD j (0, (0, 0, 0)) ∈ p := by
      rw [List.getD_eq_getElem _ _ hj]; exact List.getElem_mem hj
    have hkey := hlt _ hmemp
    rw [← hpj, ← hdec, enum_getD pal j hj2] at hkey
    rw [← hpj, ← hdec, enum_getD pal j hj2] at hmemp
    rw [hre] at hkey
    exact hkey


lemma find_color_some (pal : List Pix) (px : Pix) (hpal : pal ≠ []) :
    find_closest_palette_color pal px = some (findColorD pal px) := by
  cases hf : find_closest_palette_color pal px with
  | none => exact absurd ((find_color_none pal px).mp hf) hpal
  | some c => rw [findColorD, hf]; rfl

lemma flat_idx {w h n : ℕ} (hn : n < w * h) (hwh : w * h ≤ 2 ^ 32) :
    idxU32 w (n % w) (n / w) = n := by
  have hw : 0 < w := by
    rcases Nat.eq_zero_or_pos w with h0 | h1
    · rw [h0] at hn; simp at hn
    · exact h1
  rw [idxU32_eq (Nat.mod_lt n hw) (Nat.div_lt_of_lt_mul hn) hwh]
  exact Nat.div_add_mod' n w

lemma bayerVisit_some (w : ℕ) (pal : List Pix) (x y : ℕ) (b : List Pix)
    (hpal : pal ≠ []) :
    bayerVisit w pal x y b = some
      ((b.set (idxU32 w x y)
        (bayerPixel pal (getPix b (idxU32 w x y)) x y))) := by
  unfold bayerVisit bayerPixel
  simp only [find_color_some pal _ hpal]

lemma bayerWork_invariant (w h : ℕ) (img : ℕ → ℕ → Pix) (pal : List Pix)
    (hpal : pal ≠ []) (hwh : w * h ≤ 2 ^ 32) : ∀ n, n ≤ w * h →
    ∃ b : List Pix,
      passFlat (fun x y b2 => bayerVisit w pal x y b2) w n (mkGrid w h img)
        = some b ∧
      b.length = w * h ∧
      ∀ k, k < w * h → getPix b k =
        if k < n then bayerPixel pal (getPix (mkGrid w h img) k) (k % w) (k / w)
        else getPix (mkGrid w h img) k := by
  intro n
  induction n with
  | zero =>
    intro _
    refine ⟨mkGrid w h img, rfl, mkGrid_length w h img, ?_⟩
    intro k _
    simp
  | succ m ih =>
    intro hm1
    have hm : m < w * h := by omega
    obtain ⟨b, hb, hlen, hchar⟩ := ih (le_of_lt hm)
    have hidx : idxU32 w (m % w) (m / w) = m := flat_idx hm hwh
    have hold : getPix b m = getPix (mkGrid w h img) m := by
      rw [hchar m hm, if_neg (lt_irrefl m)]
    refine ⟨b.set m (bayerPixel pal (getPix (mkGrid w h img) m) (m % w) (m / w)),
      ?_, ?_, ?_⟩
    · rw [passFlat_succ, hb]
      show bayerVisit w pal (m % w) (m / w) b = _
      rw [bayerVisit_some w pal _ _ b hpal, hidx, hold]
    · rw [List.length_set]; exact hlen
    · intro k hk
      by_cases hkm : k = m
      · subst hkm
        rw [getPix_set_self b k _ (by omega), if_pos (by omega)]
      · rw [getPix_set_ne b k m _ (Ne.symm hkm), hchar k hk]
        by_cases hlt : k < m
        · rw [if_pos hlt, if_pos (by omega)]
        · rw [if_neg hlt, if_neg (by omega)]

lemma bayerWork_char (w h : ℕ) (img : ℕ → ℕ → Pix) (pal : List Pix)
    (hpal : pal ≠ []) (hwh : w * h ≤ 2 ^ 32) :
    ∃ b : List Pix, bayerWork w h img pal = some b ∧ b.length = w * h ∧
      ∀ x y, x < w → y < h →
        getPix b (y * w + x) = bayerPixel pal (img x y) x y := by
  obtain ⟨b, hb, hlen, hchar⟩ :=
    bayerWork_invariant w h img pal hpal hwh (w * h) (le_refl _)
  refine ⟨b, ?_, hlen, ?_⟩
  · rw [bayerWork, passNested_eq]
    exact hb
  · intro x y hx hy
    have hk : y * w + x < w * h := rowmajor_lt hx hy
    rw [hchar _ hk, if_pos hk, rowmajor_mod hx, rowmajor_div hx,
      getPix_mkGrid w h x y img hx hy]

lemma rowmajor_unique {w x1 y1 x2 y2 : ℕ} (h1 : x1 < w) (h2 : x2 < w)
    (he : y1 * w + x1 = y2 * w + x2) : x1 = x2 ∧ y1 = y2 := by
  constructor
  · have hm := congrArg (fun t => t % w) he
    simpa [rowmajor_mod h1, rowmajor_mod h2] using hm
  · have hd := congrArg (fun t => t / w) he
    simpa [rowmajor_div h1, rowmajor_div h2] using hd

lemma diffuseSpread_length (w h x y : ℕ) (err : Pix) (b : List Pix)
    (o : KernelEntry) : (diffuseSpread w h x y err b o).length = b.length := by
  unfold diffuseSpread
  dsimp only
  split
  · exact List.length_set b _ _
  · rfl

lemma diffuseSpread_border (w h x y : ℕ) (err : Pix) (b : List Pix)
    (o : KernelEntry) (x0 y0 : ℕ) (hx0 : x0 < w) (_hy0 : y0 < h)
    (hwh : w * h ≤ 2 ^ 32)
    (hb : x0 = 0 ∨ y0 = 0 ∨ x0 = w - 1 ∨ y0 = h - 1) :
    getPix (diffuseSpread w h x y err b o) (y0 * w + x0)
      = getPix b (y0 * w + x0) := by
  unfold diffuseSpread
  dsimp only
  split
  next hg =>
    obtain ⟨h1, h2, h3, h4⟩ := hg
    have hnx : ((((x : ℤ) + o.1) % 2 ^ 32).toNat : ℤ) = ((x : ℤ) + o.1) % 2 ^ 32 :=
      Int.toNat_of_nonneg (le_of_lt h1)
    have hny : ((((y : ℤ) + o.2.1) % 2 ^ 32).toNat : ℤ) = ((y : ℤ) + o.2.1) % 2 ^ 32 :=
      Int.toNat_of_nonneg (le_of_lt h3)
    have hxw : (((x : ℤ) + o.1) % 2 ^ 32).toNat < w := by omega
    have hyh : (((y : ℤ) + o.2.1) % 2 ^ 32).toNat < h := by omega
    rw [idxU32_eq hxw hyh hwh]
    apply getPix_set_ne
    intro he
    obtain ⟨hex, hey⟩ := rowmajor_unique hxw hx0 he
    omega
  next => rfl

lemma diffuseSpreads_border (w h x y : ℕ) (err : Pix)
    (offs : List KernelEntry) (x0 y0 : ℕ) (hx0 : x0 < w) (hy0 : y0 < h)
    (hwh : w * h ≤ 2 ^ 32)
    (hb : x0 = 0 ∨ y0 = 0 ∨ x0 = w - 1 ∨ y0 = h - 1) :
    ∀ b : List Pix,
      getPix (offs.foldl (diffuseSpread w h x y err) b) (y0 * w + x0)
        = getPix b (y0 * w + x0) := by
  induction offs with
  | nil => intro b; rfl
  | cons o t ih =>
    intro b
    show getPix (t.foldl (diffuseSpread w h x y err) (diffuseSpread w h x y err b o)) _ = _
    rw [ih (diffuseSpread w h x y err b o),
      diffuseSpread_border w h x y err b o x0 y0 hx0 hy0 hwh hb]

lemma diffuseSpreads_length (w h x y : ℕ) (err : Pix)
    (offs : List KernelEntry) : ∀ b : List Pix,
      (offs.foldl (diffuseSpread w h x y err) b).length = b.length := by
  induction offs with
  | nil => intro b; rfl
  | cons o t ih =>
    intro b
    show (t.foldl (diffuseSpread w h x y err) (diffuseSpread w h x y err b o)).length = _
    rw [ih (diffuseSpread w h x y err b o), diffuseSpread_length]

lemma diffuseVisit_some (w h : ℕ) (pal : List Pix) (offs : List KernelEntry)
    (x y : ℕ) (b : List Pix) (hpal : pal ≠ []) :
    diffuseVisit w h pal offs x y b = some
      (offs.foldl
        (diffuseSpread w h x y
          (subPix32 (getPix b (idxU32 w x y))
            (findColorD pal (getPix b (idxU32 w x y)))))
        (b.set (idxU32 w x y) (findColorD pal (getPix b (idxU32 w x y))))) := by
  unfold diffuseVisit
  simp only [find_color_some pal _ hpal]

lemma diffuseWork_invariant (w h : ℕ) (img : ℕ → ℕ → Pix) (pal : List Pix)
    (offs : List KernelEntry) (hpal : pal ≠ []) (hwh : w * h ≤ 2 ^ 32)
    (x0 y0 : ℕ) (hx0 : x0 < w) (hy0 : y0 < h)
    (hb : x0 = 0 ∨ y0 = 0 ∨ x0 = w - 1 ∨ y0 = h - 1) : ∀ n, n ≤ w * h →
    ∃ b : List Pix,
      passFlat (diffuseVisit w h pal offs) w n (mkGrid w h img) = some b ∧
      b.length = w * h ∧
      getPix b (y0 * w + x0) =
        if y0 * w + x0 < n then findColorD pal (img x0 y0) else img x0 y0 := by
  intro n
  induction n with
  | zero =>
    intro _
    refine ⟨mkGrid w h img, rfl, mkGrid_length w h img, ?_⟩
    rw [if_neg (by omega), getPix_mkGrid w h x0 y0 img hx0 hy0]
  | succ m ih =>
    intro hm1
    have hm : m < w * h := by omega
    have hk0 : y0 * w + x0 < w * h := rowmajor_lt hx0 hy0
    obtain ⟨b, hb2, hlen, hchar⟩ := ih (le_of_lt hm)
    have hidx : idxU32 w (m % w) (m / w) = m := flat_idx hm hwh
    refine ⟨offs.foldl
        (diffuseSpread w h (m % w) (m / w)
          (subPix32 (getPix b m) (findColorD pal (getPix b m))))
        (b.set m (findColorD pal (getPix b m))), ?_, ?_, ?_⟩
    · rw [passFlat_succ, hb2]
      show diffuseVisit w h pal offs (m % w) (m / w) b = _
      rw [diffuseVisit_some w h pal offs (m % w) (m / w) b hpal, hidx]
    · rw [diffuseSpreads_length, List.length_set]; exact hlen
    · rw [diffuseSpreads_border _ _ _ _ _ _ x0 y0 hx0 hy0 hwh hb]
      by_cases hkm : y0 * w + x0 = m
      · rw [← hkm] at hidx ⊢
        rw [getPix_set_self b _ _ (by omega), if_pos (by omega)]
        have : getPix b (y0 * w + x0) = img x0 y0 := by
          rw [hchar, if_neg (by omega)]
        rw [this]
      · rw [getPix_set_ne b _ m _ (Ne.symm hkm), hchar]
        by_cases hlt : y0 * w + x0 < m
        · rw [if_pos hlt, if_pos (by omega)]
        · rw [if_neg hlt, if_neg (by omega)]

lemma diffuseWork_border (w h : ℕ) (img : ℕ → ℕ → Pix) (pal : List Pix)
    (offs : List KernelEntry) (hpal : pal ≠ []) (hwh : w * h ≤ 2 ^ 32)
    (x0 y0 : ℕ) (hx0 : x0 < w) (hy0 : y0 < h)
    (hb : x0 = 0 ∨ y0 = 0 ∨ x0 = w - 1 ∨ y0 = h - 1) :
    ∃ b : List Pix, errorDiffusionWork w h img pal offs = some b ∧
      b.length = w * h ∧
      getPix b (y0 * w + x0) = findColorD pal (img x0 y0) := by
  obtain ⟨b, hb2, hlen, hchar⟩ :=
    diffuseWork_invariant w h img pal offs hpal hwh x0 y0 hx0 hy0 hb
      (w * h) (le_refl _)
  refine ⟨b, ?_, hlen, ?_⟩
  · rw [errorDiffusionWork, passNested_eq]
    exact hb2
  · rw [hchar, if_pos (rowmajor_lt hx0 hy0)]

lemma diffuseWork_somelen (w h : ℕ) (img : ℕ → ℕ → Pix) (pal : List Pix)
    (offs : List KernelEntry) (hpal : pal ≠ []) : ∀ n : ℕ,
    ∃ b : List Pix,
      passFlat (diffuseVisit w h pal offs) w n (mkGrid w h img) = some b ∧
      b.length = w * h := by
  intro n
  induction n with
  | zero => exact ⟨mkGrid w h img, rfl, mkGrid_length w h img⟩
  | succ m ih =>
    obtain ⟨b, hb, hlen⟩ := ih
    refine ⟨offs.foldl
        (diffuseSpread w h (m % w) (m / w)
          (subPix32 (getPix b (idxU32 w (m % w) (m / w)))
            (findColorD pal (getPix b (idxU32 w (m % w) (m / w))))))
        (b.set (idxU32 w (m % w) (m / w))
          (findColorD pal (getPix b (idxU32 w (m % w) (m / w))))), ?_, ?_⟩
    · rw [passFlat_succ, hb]
      show diffuseVisit w h pal offs (m % w) (m / w) b = _
      rw [diffuseVisit_some w h pal offs (m % w) (m / w) b hpal]
    · rw [diffuseSpreads_length, List.length_set]; exact hlen

lemma find_color_empty (px : Pix) : find_closest_palette_color [] px = none :=
  (find_color_none [] px).mpr rfl

lemma diffuseVisit_empty (w h : ℕ) (offs : List KernelEntry) (x y : ℕ)
    (b : List Pix) : diffuseVisit w h [] offs x y b = none := by
  unfold diffuseVisit
  simp only [find_color_empty]

lemma bayerVisit_empty (w x y : ℕ) (b : List Pix) :
    bayerVisit w [] x y b = none := by
  unfold bayerVisit
  simp only [find_color_empty]

lemma passFlat_fail {β : Type} (visit : ℕ → ℕ → β → Option β) (w n : ℕ)
    (b : β) (hv : ∀ x y b2, visit x y b2 = none) (hn : 0 < n) :
    passFlat visit w n b = none := by
  cases n with
  | zero => omega
  | succ m =>
    rw [passFlat_succ]
    cases passFlat visit w m b with
    | none => rfl
    | some b2 => exact hv _ _ b2

lemma buildOutput_eq (w h : ℕ) (work : List Pix) (hlen : work.length = w * h)
    (hwh : w * h ≤ 2 ^ 32) : buildOutput w h work = work.map u8cast3 := by
  rw [buildOutput, mkGrid_eq_map]
  apply List.ext_getElem
  · simp [hlen]
  · intro i h1 h2
    have hi : i < w * h := by simpa using h1
    simp only [List.getElem_map, List.getElem_range]
    rw [flat_idx hi hwh]
    rw [getPix, List.getD_eq_getElem _ _ (by omega)]

lemma findColorD_mem (pal : List Pix) (px : Pix) (hpal : pal ≠ []) :
    findColorD pal px ∈ pal :=
  find_color_mem pal px _ (find_color_some pal px hpal)

lemma getPix_map_u8 (work : List Pix) (k : ℕ) (hk : k < work.length) :
    getPix (work.map u8cast3) k = u8cast3 (getPix work k) := by
  rw [getPix, getPix, List.getD_eq_getElem _ _ (by simpa using hk),
    List.getD_eq_getElem _ _ hk, List.getElem_map]

lemma normR_le_vMax (p : Pix) : normR p ≤ vMax p :=
  le_trans (le_max_left _ _) (le_max_left _ _)

lemma normG_le_vMax (p : Pix) : normG p ≤ vMax p :=
  le_trans (le_max_right _ _) (le_max_left _ _)

lemma normB_le_vMax (p : Pix) : normB p ≤ vMax p := le_max_right _ _

lemma vMin_le_normR (p : Pix) : vMin p ≤ normR p :=
  le_trans (min_le_left _ _) (min_le_left _ _)

lemma vMin_le_normG (p : Pix) : vMin p ≤ normG p :=
  le_trans (min_le_left _ _) (min_le_right _ _)

lemma vMin_le_normB (p : Pix) : vMin p ≤ normB p := min_le_right _ _

lemma vDelta_nonneg (p : Pix) : 0 ≤ vDelta p := by
  unfold vDelta
  have := le_trans (vMin_le_normB p) (normB_le_vMax p)
  linarith

lemma vDelta_pos {p : Pix} (h : vDelta p ≠ 0) : 0 < vDelta p :=
  lt_of_le_of_ne (vDelta_nonneg p) (Ne.symm h)

lemma hue_if (p : Pix) : (rgb_to_hsv p).1 =
    if vDelta p = 0 then 0
    else if vMax p = normR p then 60 * rustFmod ((normG p - normB p) / vDelta p) 6
    else if vMax p = normG p then 60 * ((normB p - normR p) / vDelta p + 2)
    else 60 * ((normR p - normG p) / vDelta p + 4) := rfl

lemma hue_green_bounds (p : Pix) (hd : vDelta p ≠ 0) (hr : vMax p ≠ normR p)
    (hg : vMax p = normG p) :
    60 ≤ (rgb_to_hsv p).1 ∧ (rgb_to_hsv p).1 ≤ 180 := by
  rw [hue_if, if_neg hd, if_neg hr, if_pos hg]
  have hpos := vDelta_pos hd
  have h1 : normB p - normR p ≤ vDelta p := by
    have := normB_le_vMax p
    have := vMin_le_normR p
    unfold vDelta at *
    linarith
  have h2 : -(vDelta p) ≤ normB p - normR p := by
    have := vMin_le_normB p
    have := normR_le_vMax p
    unfold vDelta at *
    linarith
  have h3 : (normB p - normR p) / vDelta p ≤ 1 := by
    rw [div_le_one hpos]; exact h1
  have h4 : -1 ≤ (normB p - normR p) / vDelta p := by
    rw [le_div_iff₀ hpos]; linarith
  constructor <;> nlinarith

lemma hue_blue_bounds (p : Pix) (hd : vDelta p ≠ 0) (hr : vMax p ≠ normR p)
    (hg : vMax p ≠ normG p) :
    180 ≤ (rgb_to_hsv p).1 ∧ (rgb_to_hsv p).1 ≤ 300 := by
  rw [hue_if, if_neg hd, if_neg hr, if_neg hg]
  have hpos := vDelta_pos hd
  have h1 : normR p - normG p ≤ vDelta p := by
    have := normR_le_vMax p
    have := vMin_le_normG p
    unfold vDelta at *
    linarith
  have h2 : -(vDelta p) ≤ normR p - normG p := by
    have := vMin_le_normR p
    have := normG_le_vMax p
    unfold vDelta at *
    linarith
  have h3 : (normR p - normG p) / vDelta p ≤ 1 := by
    rw [div_le_one hpos]; exact h1
  have h4 : -1 ≤ (normR p - normG p) / vDelta p := by
    rw [le_div_iff₀ hpos]; linarith
  constructor <;> nlinarith

lemma hue_neg_red (p : Pix) (h : (rgb_to_hsv p).1 < 0) :
    vDelta p ≠ 0 ∧ vMax p = normR p := by
  by_cases hd : vDelta p = 0
  · rw [hue_if, if_pos hd] at h
    exact absurd h (by norm_num)
  by_cases hr : vMax p = normR p
  · exact ⟨hd, hr⟩
  by_cases hg : vMax p = normG p
  · have := (hue_green_bounds p hd hr hg).1
    exact absurd h (by linarith)
  · have := (hue_blue_bounds p hd hr hg).1
    exact absurd h (by linarith)

lemma wrap32_of_bounds (lo hi : ℤ) {z : ℤ} (hlo : lo ≤ z) (hhi : z ≤ hi)
    (h1 : -(2 ^ 31) ≤ lo) (h2 : hi < 2 ^ 31) : wrap32 z = z :=
  wrap32_eq (le_trans h1 hlo) (lt_of_le_of_lt hhi h2)

lemma dist32_eq (px q : Pix) (hp : pixOk px) (hq : pixOk q) :
    dist32 px q = rgbDistSpec px q := by
  obtain ⟨⟨a1, a2⟩, ⟨a3, a4⟩, a5, a6⟩ := hp
  obtain ⟨⟨b1, b2⟩, ⟨b3, b4⟩, b5, b6⟩ := hq
  unfold dist32 rgbDistSpec
  dsimp only
  have e1 : wrap32 (px.1 - q.1) = px.1 - q.1 :=
    wrap32_of_bounds (-255) 255 (by linarith) (by linarith) (by norm_num) (by norm_num)
  have e2 : wrap32 (px.2.1 - q.2.1) = px.2.1 - q.2.1 :=
    wrap32_of_bounds (-255) 255 (by linarith) (by linarith) (by norm_num) (by norm_num)
  have e3 : wrap32 (px.2.2 - q.2.2) = px.2.2 - q.2.2 :=
    wrap32_of_bounds (-255) 255 (by linarith) (by linarith) (by norm_num) (by norm_num)
  rw [e1, e2, e3]
  have s1 : wrap32 ((px.1 - q.1) * (px.1 - q.1)) = (px.1 - q.1) * (px.1 - q.1) :=
    wrap32_of_bounds 0 65025 (mul_self_nonneg _) (by nlinarith) (by norm_num) (by norm_num)
  have s2 : wrap32 ((px.2.1 - q.2.1) * (px.2.1 - q.2.1))
      = (px.2.1 - q.2.1) * (px.2.1 - q.2.1) :=
    wrap32_of_bounds 0 65025 (mul_self_nonneg _) (by nlinarith) (by norm_num) (by norm_num)
  have s3 : wrap32 ((px.2.2 - q.2.2) * (px.2.2 - q.2.2))
      = (px.2.2 - q.2.2) * (px.2.2 - q.2.2) :=
    wrap32_of_bounds 0 65025 (mul_self_nonneg _) (by nlinarith) (by norm_num) (by norm_num)
  rw [s1, s2, s3]
  have t1 : wrap32 ((px.1 - q.1) * (px.1 - q.1) + (px.2.1 - q.2.1) * (px.2.1 - q.2.1))
      = (px.1 - q.1) * (px.1 - q.1) + (px.2.1 - q.2.1) * (px.2.1 - q.2.1) :=
    wrap32_of_bounds 0 130050 (by nlinarith [mul_self_nonneg (px.1 - q.1), mul_self_nonneg (px.2.1 - q.2.1)]) (by nlinarith) (by norm_num) (by norm_num)
  rw [t1]
  have t2 : wrap32 ((px.1 - q.1) * (px.1 - q.1) + (px.2.1 - q.2.1) * (px.2.1 - q.2.1)
        + (px.2.2 - q.2.2) * (px.2.2 - q.2.2))
      = (px.1 - q.1) * (px.1 - q.1) + (px.2.1 - q.2.1) * (px.2.1 - q.2.1)
        + (px.2.2 - q.2.2) * (px.2.2 - q.2.2) :=
    wrap32_of_bounds 0 195075 (by nlinarith [mul_self_nonneg (px.1 - q.1), mul_self_nonneg (px.2.1 - q.2.1), mul_self_nonneg (px.2.2 - q.2.2)]) (by nlinarith) (by norm_num) (by norm_num)
  rw [t2]
  ring

/-- Claim C10 (confirmed): the pixel (200,0,100) — red-max with blue above
green — gets the strictly negative hue −30 from `rgb_to_hsv`, so hue is not
always in [0,360); the green-max branch always lands in [60,180], the
blue-max branch in [180,300], and a negative hue can only come from the
red-max branch. -/
theorem c10_theorem :
    (rgb_to_hsv (200, 0, 100)).1 = -30 ∧ (rgb_to_hsv (200, 0, 100)).1 < 0 ∧
    (∀ p : Pix, vDelta p ≠ 0 → vMax p ≠ normR p → vMax p = normG p →
      60 ≤ (rgb_to_hsv p).1 ∧ (rgb_to_hsv p).1 ≤ 180) ∧
    (∀ p : Pix, vDelta p ≠ 0 → vMax p ≠ normR p → vMax p ≠ normG p →
      180 ≤ (rgb_to_hsv p).1 ∧ (rgb_to_hsv p).1 ≤ 300) ∧
    (∀ p : Pix, (rgb_to_hsv p).1 < 0 → vDelta p ≠ 0 ∧ vMax p = normR p) := by
  have hval : (rgb_to_hsv (200, 0, 100)).1 = -30 := by
    norm_num [rgb_to_hsv, vMax, vMin, vDelta, normR, normG, normB, rustFmod,
      ratTrunc]
  exact ⟨hval, by rw [hval]; norm_num, hue_green_bounds, hue_blue_bounds,
    hue_neg_red⟩

/-- Witness for C10: the green-max pixel (0,200,100) gets hue in [60,180],
the blue-max pixel (0,100,200) gets hue in [180,300], and the negative-hue
pixel (200,0,100) is in the red-max branch. -/
theorem c10_witness :
    (60 ≤ (rgb_to_hsv (0, 200, 100)).1 ∧ (rgb_to_hsv (0, 200, 100)).1 ≤ 180) ∧
    (180 ≤ (rgb_to_hsv (0, 100, 200)).1 ∧ (rgb_to_hsv (0, 100, 200)).1 ≤ 300) ∧
    (vDelta (200, 0, 100) ≠ 0 ∧ vMax (200, 0, 100) = normR (200, 0, 100)) := by
  refine ⟨?_, ?_, ?_⟩
  · exact c10_theorem.2.2.1 (0, 200, 100)
      (by norm_num [vDelta, vMax, vMin, normR, normG, normB])
      (by norm_num [vMax, normR, normG, normB])
      (by norm_num [vMax, normG, normR, normB])
  · exact c10_theorem.2.2.2.1 (0, 100, 200)
      (by norm_num [vDelta, vMax, vMin, normR, normG, normB])
      (by norm_num [vMax, normR, normG, normB])
      (by norm_num [vMax, normG, normR, normB])
  · exact c10_theorem.2.2.2.2 (200, 0, 100) (by rw [c10_theorem.1]; norm_num)

/-- Claim C7 (confirmed): for a non-empty palette of `u8`-range colors and
a `u8`-range pixel, `find_closest_palette_index` returns an index of an
entry minimizing the exact squared Euclidean RGB distance, and on ties the
first occurrence in palette order wins (every strictly earlier index has
strictly larger distance). -/
theorem c7_theorem : ∀ (pal : List Pix) (px : Pix), pal ≠ [] →
    (∀ q ∈ pal, pixOk q) → pixOk px →
    ∃ i, find_closest_palette_index pal px = some i ∧ i < pal.length ∧
      (∀ j, j < pal.length →
        rgbDistSpec px (pal.getD i (0, 0, 0)) ≤ rgbDistSpec px (pal.getD j (0, 0, 0))) ∧
      (∀ j, j < i →
        rgbDistSpec px (pal.getD i (0, 0, 0)) < rgbDistSpec px (pal.getD j (0, 0, 0))) := by
  intro pal px hpal hok hpx
  cases hf : find_closest_palette_index pal px with
  | none => exact absurd ((find_index_none pal px).mp hf) hpal
  | some i =>
    obtain ⟨hi, hmin, hfirst⟩ := find_index_spec pal px i hf
    have hds : ∀ j, j < pal.length →
        dist32 px (pal.getD j (0, 0, 0)) = rgbDistSpec px (pal.getD j (0, 0, 0)) := by
      intro j hj
      have hmem : pal.getD j (0, 0, 0) ∈ pal := by
        rw [List.getD_eq_getElem _ _ hj]
        exact List.getElem_mem hj
      exact dist32_eq px _ hpx (hok _ hmem)
    refine ⟨i, rfl, hi, ?_, ?_⟩
    · intro j hj
      have := hmin j hj
      rw [hds i hi, hds j hj] at this
      exact this
    · intro j hj
      have := hfirst j hj
      rw [hds i hi, hds j (lt_trans hj hi)] at this
      exact this

/-- Witness for C7: for the tie palette [(0,0,0),(10,10,10)] and pixel
(5,5,5) the index variant picks index 0, the first of the two equidistant
entries. -/
theorem c7_witness :
    ∃ i, find_closest_palette_index [(0, 0, 0), (10, 10, 10)] (5, 5, 5) = some i ∧
      i < ([((0:ℤ), (0:ℤ), (0:ℤ)), (10, 10, 10)] : List Pix).length ∧
      (∀ j, j < ([((0:ℤ), (0:ℤ), (0:ℤ)), (10, 10, 10)] : List Pix).length →
        rgbDistSpec (5, 5, 5) (([((0:ℤ), (0:ℤ), (0:ℤ)), (10, 10, 10)] : List Pix).getD i (0, 0, 0)) ≤
          rgbDistSpec (5, 5, 5) (([((0:ℤ), (0:ℤ), (0:ℤ)), (10, 10, 10)] : List Pix).getD j (0, 0, 0))) ∧
      (∀ j, j < i →
        rgbDistSpec (5, 5, 5) (([((0:ℤ), (0:ℤ), (0:ℤ)), (10, 10, 10)] : List Pix).getD i (0, 0, 0)) <
          rgbDistSpec (5, 5, 5) (([((0:ℤ), (0:ℤ), (0:ℤ)), (10, 10, 10)] : List Pix).getD j (0, 0, 0))) :=
  c7_theorem [(0, 0, 0), (10, 10, 10)] (5, 5, 5) (by decide)
    (by decide) (by decide)

/-- Claim C3 (confirmed): both matching variants fail (the `.unwrap()`
panic, modelled as `none` — the spec's `InvalidPalette`) exactly when the
palette is empty; on a non-empty palette they always return a valid index,
respectively a palette member; and with an empty palette a dither pass on
a non-empty image fails instead of producing output. -/
theorem c3_theorem :
    (∀ (pal : List Pix) (px : Pix),
      (find_closest_palette_index pal px = none ↔ pal = []) ∧
      (find_closest_palette_color pal px = none ↔ pal = [])) ∧
    (∀ (pal : List Pix) (px : Pix), pal ≠ [] →
      ∃ i, find_closest_palette_index pal px = some i ∧ i < pal.length) ∧
    (∀ (pal : List Pix) (px : Pix), pal ≠ [] →
      ∃ c, find_closest_palette_color pal px = some c ∧ c ∈ pal) ∧
    (∀ (w h : ℕ) (img : ℕ → ℕ → Pix) (offs : List KernelEntry),
      0 < w → 0 < h → errorDiffusionWork w h img [] offs = none) ∧
    (∀ (w h : ℕ) (img : ℕ → ℕ → Pix), 0 < w → 0 < h →
      bayerWork w h img [] = none) := by
  refine ⟨?_, ?_, ?_, ?_, ?_⟩
  · exact fun pal px => ⟨find_index_none pal px, find_color_none pal px⟩
  · intro pal px hpal
    cases hf : find_closest_palette_index pal px with
    | none => exact absurd ((find_index_none pal px).mp hf) hpal
    | some i => exact ⟨i, rfl, (find_index_spec pal px i hf).1⟩
  · intro pal px hpal
    exact ⟨findColorD pal px, find_color_some pal px hpal,
      findColorD_mem pal px hpal⟩
  · intro w h img offs hw hh
    rw [errorDiffusionWork, passNested_eq]
    exact passFlat_fail _ _ _ _
      (fun x y b2 => diffuseVisit_empty w h offs x y b2) (Nat.mul_pos hw hh)
  · intro w h img hw hh
    rw [bayerWork, passNested_eq]
    exact passFlat_fail _ _ _ _ (fun x y b2 => bayerVisit_empty w x y b2)
      (Nat.mul_pos hw hh)

/-- Witness for C3: on the one-entry palette both lookups succeed with
index 0 / the black entry, and on the empty palette a 1×1 diffusion pass
fails. -/
theorem c3_witness :
    (∃ i, find_closest_palette_index [(0, 0, 0)] (1, 2, 3) = some i ∧
      i < ([((0 : ℤ), (0 : ℤ), (0 : ℤ))] : List Pix).length) ∧
    (∃ c, find_closest_palette_color [(0, 0, 0)] (1, 2, 3) = some c ∧
      c ∈ ([((0 : ℤ), (0 : ℤ), (0 : ℤ))] : List Pix)) ∧
    errorDiffusionWork 1 1 (fun _ _ => (0, 0, 0)) [] [] = none :=
  ⟨c3_theorem.2.1 _ _ (by decide), c3_theorem.2.2.1 _ _ (by decide),
    c3_theorem.2.2.2.1 1 1 _ [] (by norm_num) (by norm_num)⟩

/-- Claim C8 (confirmed): with image dimensions in [1, 2^31) and `i32`
kernel offsets, every buffer index the diffusion loop can use — the
visiting index and any kernel target passing the interior bounds check —
is below `width * height`, and a target with a negative coordinate wraps
to a value of at least 2^31 and always fails the bounds check. -/
theorem c8_theorem : ∀ (w h x y : ℕ) (dx dy : ℤ),
    1 ≤ w → w < 2 ^ 31 → 1 ≤ h → h < 2 ^ 31 → x < w → y < h →
    -(2 ^ 31) ≤ dx → dx < 2 ^ 31 → -(2 ^ 31) ≤ dy → dy < 2 ^ 31 →
    idxU32 w x y < w * h ∧
    ((0 < ((x : ℤ) + dx) % 2 ^ 32 ∧ ((x : ℤ) + dx) % 2 ^ 32 < (w : ℤ) - 1 ∧
      0 < ((y : ℤ) + dy) % 2 ^ 32 ∧ ((y : ℤ) + dy) % 2 ^ 32 < (h : ℤ) - 1) →
      idxU32 w (((x : ℤ) + dx) % 2 ^ 32).toNat (((y : ℤ) + dy) % 2 ^ 32).toNat
        < w * h) ∧
    ((x : ℤ) + dx < 0 →
      ¬ (0 < ((x : ℤ) + dx) % 2 ^ 32 ∧ ((x : ℤ) + dx) % 2 ^ 32 < (w : ℤ) - 1 ∧
        0 < ((y : ℤ) + dy) % 2 ^ 32 ∧ ((y : ℤ) + dy) % 2 ^ 32 < (h : ℤ) - 1)) := by
  intro w h x y dx dy hw1 hw2 hh1 hh2 hx hy hdx1 hdx2 hdy1 hdy2
  refine ⟨?_, ?_, ?_⟩
  · exact lt_of_le_of_lt (Nat.mod_le _ _) (rowmajor_lt hx hy)
  · rintro ⟨g1, g2, g3, g4⟩
    have ha : ((((x : ℤ) + dx) % 2 ^ 32).toNat : ℤ) = ((x : ℤ) + dx) % 2 ^ 32 :=
      Int.toNat_of_nonneg (le_of_lt g1)
    have hb : ((((y : ℤ) + dy) % 2 ^ 32).toNat : ℤ) = ((y : ℤ) + dy) % 2 ^ 32 :=
      Int.toNat_of_nonneg (le_of_lt g3)
    have hxw : (((x : ℤ) + dx) % 2 ^ 32).toNat < w := by omega
    have hyh : (((y : ℤ) + dy) % 2 ^ 32).toNat < h := by omega
    exact lt_of_le_of_lt (Nat.mod_le _ _) (rowmajor_lt hxw hyh)
  · intro hneg
    rintro ⟨g1, g2, g3, g4⟩
    omega

/-- Witness for C8: for a 3×3 image, visiting pixel (2,2) and the kernel
target (1,1) of offset (−1,−1), both computed indices are below 9. -/
theorem c8_witness :
    idxU32 3 2 2 < 3 * 3 ∧
    idxU32 3 ((((2 : ℕ) : ℤ) + -1) % 2 ^ 32).toNat
      ((((2 : ℕ) : ℤ) + -1) % 2 ^ 32).toNat < 3 * 3 := by
  have h := c8_theorem 3 3 2 2 (-1) (-1) (by norm_num) (by norm_num)
    (by norm_num) (by norm_num) (by norm_num) (by norm_num) (by norm_num)
    (by norm_num) (by norm_num) (by norm_num)
  exact ⟨h.1, h.2.1 (by norm_num)⟩

/-- Claim C4 (confirmed): on any image with a non-empty palette and any
kernel, every border pixel of the diffusion working buffer ends the pass
holding exactly the palette color matched for its original value: no
diffused error ever reaches the one-pixel border. -/
theorem c4_theorem : ∀ (w h : ℕ) (img : ℕ → ℕ → Pix) (pal : List Pix)
    (offs : List KernelEntry) (x0 y0 : ℕ), pal ≠ [] → w * h ≤ 2 ^ 32 →
    x0 < w → y0 < h → (x0 = 0 ∨ y0 = 0 ∨ x0 = w - 1 ∨ y0 = h - 1) →
    ∃ b, errorDiffusionWork w h img pal offs = some b ∧
      find_closest_palette_color pal (img x0 y0) = some (getPix b (y0 * w + x0)) := by
  intro w h img pal offs x0 y0 hpal hwh hx0 hy0 hborder
  obtain ⟨b, hb, _, hval⟩ :=
    diffuseWork_border w h img pal offs hpal hwh x0 y0 hx0 hy0 hborder
  refine ⟨b, hb, ?_⟩
  rw [hval]
  exact find_color_some pal _ hpal

/-- Witness for C4: a 1×1 image is all border; with palette [(0,0,0)] and
an empty kernel the single working-buffer cell ends as the matched color. -/
theorem c4_witness :
    ∃ b, errorDiffusionWork 1 1 (fun _ _ => (5, 5, 5)) [(0, 0, 0)] [] = some b ∧
      find_closest_palette_color [(0, 0, 0)] ((fun _ _ => ((5 : ℤ), (5 : ℤ), (5 : ℤ))) 0 0)
        = some (getPix b (0 * 1 + 0)) :=
  c4_theorem 1 1 (fun _ _ => (5, 5, 5)) [(0, 0, 0)] [] 0 0 (by decide)
    (by norm_num) (by norm_num) (by norm_num) (Or.inl rfl)

lemma bayerMatrix_range : ∀ k : ℕ,
    0 ≤ bayerMatrix.getD k 0 ∧ bayerMatrix.getD k 0 ≤ 63 := by
  intro k
  by_cases hk : k < bayerMatrix.length
  · have hmem : bayerMatrix.getD k 0 ∈ bayerMatrix := by
      rw [List.getD_eq_getElem _ _ hk]
      exact List.getElem_mem hk
    have hall : ∀ z ∈ bayerMatrix, 0 ≤ z ∧ z ≤ 63 := by decide
    exact hall _ hmem
  · rw [List.getD_eq_default _ _ (by omega)]
    norm_num

lemma bayerAdjust_eq (c m : ℤ) (hc : chanOk c) (hm : 0 ≤ m ∧ m ≤ 63) :
    bayerAdjust c m = rngClamp (c + m - 32) := by
  obtain ⟨hc1, hc2⟩ := hc
  unfold bayerAdjust
  have h1 : wrap32 (c + m) = c + m :=
    wrap32_of_bounds 0 318 (by linarith) (by linarith) (by norm_num)
      (by norm_num)
  rw [h1]
  have h2 : wrap32 (c + m - 32) = c + m - 32 :=
    wrap32_of_bounds (-32) 286 (by linarith) (by linarith) (by norm_num)
      (by norm_num)
  rw [h2]

lemma bayerPixel_mod (pal : List Pix) (p : Pix) (x y : ℕ) :
    bayerPixel pal p x y = bayerPixel pal p (x % 8) (y % 8) := by
  unfold bayerPixel bayer_idx
  rw [Nat.mod_mod_of_dvd x (dvd_refl 8), Nat.mod_mod_of_dvd y (dvd_refl 8)]

/-- Claim C5 (confirmed): for every pixel of a `u8`-range image, the
Bayer pass writes, at that same position, the nearest palette color of the
per-channel adjusted value `clamp(original + matrix[y mod 8][x mod 8] − 32,
0, 255)`, and the written value depends only on `(x mod 8, y mod 8)` and
the original pixel, never on neighboring pixels. -/
theorem c5_theorem : ∀ (w h : ℕ) (img : ℕ → ℕ → Pix) (pal : List Pix)
    (x y : ℕ), pal ≠ [] → w * h ≤ 2 ^ 32 → x < w → y < h → pixOk (img x y) →
    ∃ b, bayerWork w h img pal = some b ∧
      (∃ c, find_closest_palette_color pal
          (rngClamp ((img x y).1 + bayerMatrix.getD (y % 8 * 8 + x % 8) 0 - 32),
           rngClamp ((img x y).2.1 + bayerMatrix.getD (y % 8 * 8 + x % 8) 0 - 32),
           rngClamp ((img x y).2.2 + bayerMatrix.getD (y % 8 * 8 + x % 8) 0 - 32))
          = some c ∧ getPix b (y * w + x) = c) ∧
      getPix b (y * w + x) = bayerPixel pal (img x y) (x % 8) (y % 8) := by
  intro w h img pal x y hpal hwh hx hy hok
  obtain ⟨b, hb, _, hchar⟩ := bayerWork_char w h img pal hpal hwh
  have hval := hchar x y hx hy
  refine ⟨b, hb, ?_, by rw [hval]; exact bayerPixel_mod pal (img x y) x y⟩
  obtain ⟨hr, hg, hbb⟩ := hok
  have hm := bayerMatrix_range (bayer_idx x y)
  have hadj : bayerPixel pal (img x y) x y = findColorD pal
      (rngClamp ((img x y).1 + bayerMatrix.getD (y % 8 * 8 + x % 8) 0 - 32),
       rngClamp ((img x y).2.1 + bayerMatrix.getD (y % 8 * 8 + x % 8) 0 - 32),
       rngClamp ((img x y).2.2 + bayerMatrix.getD (y % 8 * 8 + x % 8) 0 - 32)) := by
    show findColorD pal
        (bayerAdjust (img x y).1 (bayerMatrix.getD (bayer_idx x y) 0),
         bayerAdjust (img x y).2.1 (bayerMatrix.getD (bayer_idx x y) 0),
         bayerAdjust (img x y).2.2 (bayerMatrix.getD (bayer_idx x y) 0)) = _
    rw [bayerAdjust_eq _ _ hr hm, bayerAdjust_eq _ _ hg hm,
      bayerAdjust_eq _ _ hbb hm]
    rfl
  refine ⟨findColorD pal _, find_color_some pal _ hpal, ?_⟩
  rw [hval, hadj]

/-- Witness for C5: a 1×1 image with pixel (100,100,100) and palette
[(0,0,0)]: the written value is the matched color of the adjusted pixel
and equals `bayerPixel` of the original. -/
theorem c5_witness :
    ∃ b, bayerWork 1 1 (fun _ _ => (100, 100, 100)) [(0, 0, 0)] = some b ∧
      (∃ c, find_closest_palette_color [(0, 0, 0)]
          (rngClamp (((fun _ _ => ((100 : ℤ), (100 : ℤ), (100 : ℤ))) 0 0).1
              + bayerMatrix.getD (0 % 8 * 8 + 0 % 8) 0 - 32),
           rngClamp (((fun _ _ => ((100 : ℤ), (100 : ℤ), (100 : ℤ))) 0 0).2.1
              + bayerMatrix.getD (0 % 8 * 8 + 0 % 8) 0 - 32),
           rngClamp (((fun _ _ => ((100 : ℤ), (100 : ℤ), (100 : ℤ))) 0 0).2.2
              + bayerMatrix.getD (0 % 8 * 8 + 0 % 8) 0 - 32))
          = some c ∧ getPix b (0 * 1 + 0) = c) ∧
      getPix b (0 * 1 + 0) = bayerPixel [(0, 0, 0)]
        ((fun _ _ => ((100 : ℤ), (100 : ℤ), (100 : ℤ))) 0 0) (0 % 8) (0 % 8) :=
  c5_theorem 1 1 (fun _ _ => (100, 100, 100)) [(0, 0, 0)] 0 0 (by decide)
    (by norm_num) (by norm_num) (by norm_num) (by decide)

lemma diffuseVisit_len (w h : ℕ) (pal : List Pix) (offs : List KernelEntry)
    (x y : ℕ) (b b2 : List Pix)
    (hv : diffuseVisit w h pal offs x y b = some b2) : b2.length = b.length := by
  unfold diffuseVisit at hv
  dsimp only at hv
  cases hf : find_closest_palette_color pal (getPix b (idxU32 w x y)) with
  | none => rw [hf] at hv; cases hv
  | some np =>
    rw [hf] at hv
    have hb2 : b2 = offs.foldl
        (diffuseSpread w h x y (subPix32 (getPix b (idxU32 w x y)) np))
        (b.set (idxU32 w x y) np) := by
      cases hv
      rfl
    rw [hb2, diffuseSpreads_length, List.length_set]

lemma diffuseWork_len (w h : ℕ) (img : ℕ → ℕ → Pix) (pal : List Pix)
    (offs : List KernelEntry) : ∀ (n : ℕ) (b2 : List Pix),
    passFlat (diffuseVisit w h pal offs) w n (mkGrid w h img) = some b2 →
    b2.length = w * h := by
  intro n
  induction n with
  | zero =>
    intro b2 hb2
    have : mkGrid w h img = b2 := by
      simpa [passFlat] using hb2
    rw [← this]
    exact mkGrid_length w h img
  | succ m ih =>
    intro b2 hb2
    rw [passFlat_succ] at hb2
    cases hp : passFlat (diffuseVisit w h pal offs) w m (mkGrid w h img) with
    | none => rw [hp] at hb2; cases hb2
    | some bm =>
      rw [hp] at hb2
      rw [diffuseVisit_len w h pal offs (m % w) (m / w) bm b2 hb2]
      exact ih bm hp

/-- Claim C6 (confirmed): the 8-bit output of `error_diffusion` is the
working buffer narrowed channelwise by the truncating `as u8` cast —
reduction of the two's-complement value modulo 256 — not a saturating
clamp: in-range values pass through unchanged, 300 wraps to 44 (not 255)
and −6 wraps to 250 (not 0). -/
theorem c6_theorem : ∀ (w h : ℕ) (img : ℕ → ℕ → Pix) (pal : List Pix)
    (offs : List KernelEntry) (work : List Pix), w * h ≤ 2 ^ 32 →
    errorDiffusionWork w h img pal offs = some work →
    (error_diffusion w h img pal offs = some (work.map u8cast3) ∧
      ∀ k, k < w * h → getPix (work.map u8cast3) k = u8cast3 (getPix work k)) ∧
    (∀ z : ℤ, 0 ≤ z → z ≤ 255 → u8cast z = z) ∧
    u8cast 300 = 44 ∧ u8cast (-6) = 250 := by
  intro w h img pal offs work hwh hwork
  have hlen : work.length = w * h := by
    apply diffuseWork_len w h img pal offs (w * h) work
    rw [← passNested_eq]
    exact hwork
  refine ⟨⟨?_, ?_⟩, ?_, by decide, by decide⟩
  · rw [error_diffusion, hwork, Option.map_some',
      buildOutput_eq w h work hlen hwh]
  · intro k hk
    exact getPix_map_u8 work k (by omega)
  · intro z h1 h2
    exact u8cast_eq h1 h2

/-- Witness for C6: the 1×1 all-border run with palette [(0,0,0)] has
working buffer [(0,0,0)]; its output is the modulo-256 narrowing, in-range
values pass through, and 300/−6 wrap to 44/250. -/
theorem c6_witness :
    (error_diffusion 1 1 (fun _ _ => (5, 5, 5)) [(0, 0, 0)] []
        = some (([((0 : ℤ), (0 : ℤ), (0 : ℤ))] : List Pix).map u8cast3) ∧
      ∀ k, k < 1 * 1 → getPix (([((0 : ℤ), (0 : ℤ), (0 : ℤ))] : List Pix).map u8cast3) k
        = u8cast3 (getPix [((0 : ℤ), (0 : ℤ), (0 : ℤ))] k)) ∧
    (∀ z : ℤ, 0 ≤ z → z ≤ 255 → u8cast z = z) ∧
    u8cast 300 = 44 ∧ u8cast (-6) = 250 :=
  c6_theorem 1 1 (fun _ _ => (5, 5, 5)) [(0, 0, 0)] [] [(0, 0, 0)]
    (by norm_num) (by decide)

/-- Claim C9 (confirmed): every pixel of the Bayer output is exactly a
palette entry: the matched color has `u8`-range channels (it comes from
the palette), so the final `as u8` narrowing is the identity on it. -/
theorem c9_theorem : ∀ (w h : ℕ) (img : ℕ → ℕ → Pix) (pal : List Pix)
    (x y : ℕ), pal ≠ [] → (∀ q ∈ pal, pixOk q) → w * h ≤ 2 ^ 32 →
    x < w → y < h →
    ∃ out, bayer w h img pal = some out ∧ getPix out (y * w + x) ∈ pal := by
  intro w h img pal x y hpal hok hwh hx hy
  obtain ⟨b, hb, hlen, hchar⟩ := bayerWork_char w h img pal hpal hwh
  refine ⟨b.map u8cast3, ?_, ?_⟩
  · rw [bayer, hb, Option.map_some', buildOutput_eq w h b hlen hwh]
  · have hk : y * w + x < w * h := rowmajor_lt hx hy
    rw [getPix_map_u8 b _ (by omega), hchar x y hx hy]
    have hmem : bayerPixel pal (img x y) x y ∈ pal := findColorD_mem pal _ hpal
    rw [u8cast3_eq (hok _ hmem)]
    exact hmem

/-- Witness for C9: the 1×1 Bayer output over palette [(0,0,0)] is the
palette entry (0,0,0). -/
theorem c9_witness :
    ∃ out, bayer 1 1 (fun _ _ => (100, 100, 100)) [(0, 0, 0)] = some out ∧
      getPix out (0 * 1 + 0) ∈ ([((0 : ℤ), (0 : ℤ), (0 : ℤ))] : List Pix) :=
  c9_theorem 1 1 (fun _ _ => (100, 100, 100)) [(0, 0, 0)] 0 0 (by decide)
    (by decide) (by norm_num) (by norm_num) (by norm_num)

lemma hsvKey_tie0 : hsvKey (5, 5, 5) (0, 0, 0) = 0 := by
  norm_num [hsvKey, rgb_to_hsv, vMax, vMin, vDelta, normR, normG, normB,
    rustFmod, ratTrunc, wrap64, abs, max_def]

lemma hsvKey_tie1 : hsvKey (5, 5, 5) (10, 10, 10) = 0 := by
  norm_num [hsvKey, rgb_to_hsv, vMax, vMin, vDelta, normR, normG, normB,
    rustFmod, ratTrunc, wrap64, abs, max_def]

lemma tie_candidates : rgbCandidates [(0, 0, 0), (10, 10, 10)] (5, 5, 5)
    = [(0, 0, 0), (10, 10, 10)] := by
  have hm : minRgbDist [((0 : ℤ), (0 : ℤ), (0 : ℤ)), (10, 10, 10)] (5, 5, 5)
      = some 75 := by decide
  unfold rgbCandidates
  rw [hm]
  decide

lemma find_color_tie :
    find_closest_palette_color [(0, 0, 0), (10, 10, 10)] (5, 5, 5)
      = some (0, 0, 0) := by
  have hm : minRgbDist [((0 : ℤ), (0 : ℤ), (0 : ℤ)), (10, 10, 10)] (5, 5, 5)
      = some 75 := by decide
  unfold find_closest_palette_color
  rw [hm, tie_candidates]
  simp only [List.length_cons, List.length_nil]
  rw [if_neg (by norm_num)]
  simp only [minByKeyFirst, foldMinBy, List.foldl, hsvKey_tie0, hsvKey_tie1]
  norm_num

/-- Counterexample to C1: for palette [(0,0,0),(10,10,10)] and pixel
(5,5,5), `find_closest_palette_color` does not select (10,10,10): the
truncated HSV tie-break keys of the two candidates are both 0 (and the
exact |Δvalue| is 5/255 for both), so the stable sort keeps palette order
and the first entry (0,0,0) wins. -/
theorem c1_counterexample :
    find_closest_palette_color [(0, 0, 0), (10, 10, 10)] (5, 5, 5)
      ≠ some (10, 10, 10) := by
  rw [find_color_tie]
  decide

/-- Claim C1 (corrected): ties in squared RGB distance are broken by the
integer-truncated HSV key `⌊|Δh|⌋² + ⌊|Δs|⌋² + ⌊|Δv|⌋²` (each `f32`
difference is cast `as i64`, truncating, before squaring), with the first
candidate in palette order winning further ties; for palette
[(0,0,0),(10,10,10)] and pixel (5,5,5) both keys are 0, so (0,0,0) — not
(10,10,10) — is selected. -/
theorem c1_theorem :
    find_closest_palette_color [(0, 0, 0), (10, 10, 10)] (5, 5, 5)
      = some (0, 0, 0) ∧
    hsvKey (5, 5, 5) (0, 0, 0) = hsvKey (5, 5, 5) (10, 10, 10) ∧
    rgbCandidates [(0, 0, 0), (10, 10, 10)] (5, 5, 5)
      = [(0, 0, 0), (10, 10, 10)] ∧
    (∀ (pal : List Pix) (px c : Pix),
      find_closest_palette_color pal px = some c →
      c ∈ rgbCandidates pal px ∧
      (∀ q ∈ rgbCandidates pal px, hsvKey px c ≤ hsvKey px q) ∧
      ∃ p s : List Pix, rgbCandidates pal px = p ++ c :: s ∧
        ∀ x ∈ p, hsvKey px c < hsvKey px x) :=
  ⟨find_color_tie, by rw [hsvKey_tie0, hsvKey_tie1], tie_candidates,
    fun pal px c hf => ⟨find_color_mem_cand pal px c hf,
      find_color_hsv_min pal px c hf, find_color_first pal px c hf⟩⟩

/-- Witness for C1: on the one-entry palette the selected color is the
sole RGB candidate, minimal and first for the HSV key. -/
theorem c1_witness :
    (0, 0, 0) ∈ rgbCandidates [(0, 0, 0)] (1, 1, 1) ∧
    (∀ q ∈ rgbCandidates [(0, 0, 0)] (1, 1, 1),
      hsvKey (1, 1, 1) (0, 0, 0) ≤ hsvKey (1, 1, 1) q) ∧
    ∃ p s : List Pix, rgbCandidates [(0, 0, 0)] (1, 1, 1) = p ++ (0, 0, 0) :: s ∧
      ∀ x ∈ p, hsvKey (1, 1, 1) (0, 0, 0) < hsvKey (1, 1, 1) x :=
  c1_theorem.2.2.2 [(0, 0, 0)] (1, 1, 1) (0, 0, 0) (by decide)

/-- Counterexample to C2: with per-channel error 5 and kernel weight 3/4,
the diffusion step adds `(5 as f64 * 0.75) as i32 = 3` — truncation toward
zero — to the interior target, not the nearest integer `round(3.75) = 4`:
the target cell of an all-zero 3×3 buffer ends at 3, not 4. -/
theorem c2_counterexample :
    getPix (diffuseSpread 3 3 2 2 (5, 5, 5)
        (List.replicate 9 ((0 : ℤ), (0 : ℤ), (0 : ℤ))) (-1, -1, 3 / 4))
        (1 * 3 + 1)
      = (3, 3, 3) ∧ round ((5 : ℚ) * (3 / 4)) = 4 := by
  constructor
  · have ha : diffuseAmount 5 (3 / 4) = 3 := by
      norm_num [diffuseAmount, castF64toI32, ratTrunc]
    have hd : diffuseSpread 3 3 2 2 (5, 5, 5)
        (List.replicate 9 ((0 : ℤ), (0 : ℤ), (0 : ℤ))) (-1, -1, 3 / 4)
        = (List.replicate 9 ((0 : ℤ), (0 : ℤ), (0 : ℤ))).set 4 (3, 3, 3) := by
      unfold diffuseSpread
      dsimp only
      rw [if_pos (by decide)]
      rw [ha]
      decide
    rw [hd]
    decide
  · rw [round_eq]
    norm_num

/-- Claim C2 (corrected): for a kernel entry whose target passes the
interior bounds check, each target channel is increased (with wrapping
`i32` addition) by `diffuseAmount err weight = (err as f64 * weight) as
i32`, i.e. the product truncated toward zero and saturated to the `i32`
range — not rounded to the nearest integer; when the product's truncation
lies in the `i32` range the amount is exactly `ratTrunc (err * weight)`,
and an entry failing the bounds check leaves the buffer unchanged. -/
theorem c2_theorem :
    (∀ (w h x y : ℕ) (err : Pix) (b : List Pix) (dx dy : ℤ) (q : ℚ),
      (0 < ((x : ℤ) + dx) % 2 ^ 32 ∧ ((x : ℤ) + dx) % 2 ^ 32 < (w : ℤ) - 1 ∧
        0 < ((y : ℤ) + dy) % 2 ^ 32 ∧ ((y : ℤ) + dy) % 2 ^ 32 < (h : ℤ) - 1) →
      idxU32 w (((x : ℤ) + dx) % 2 ^ 32).toNat
        (((y : ℤ) + dy) % 2 ^ 32).toNat < b.length →
      getPix (diffuseSpread w h x y err b (dx, dy, q))
          (idxU32 w (((x : ℤ) + dx) % 2 ^ 32).toNat
            (((y : ℤ) + dy) % 2 ^ 32).toNat)
        = (wrap32 ((getPix b (idxU32 w (((x : ℤ) + dx) % 2 ^ 32).toNat
              (((y : ℤ) + dy) % 2 ^ 32).toNat)).1 + diffuseAmount err.1 q),
           wrap32 ((getPix b (idxU32 w (((x : ℤ) + dx) % 2 ^ 32).toNat
              (((y : ℤ) + dy) % 2 ^ 32).toNat)).2.1 + diffuseAmount err.2.1 q),
           wrap32 ((getPix b (idxU32 w (((x : ℤ) + dx) % 2 ^ 32).toNat
              (((y : ℤ) + dy) % 2 ^ 32).toNat)).2.2 + diffuseAmount err.2.2 q))) ∧
    (∀ (e : ℤ) (q : ℚ), -(2 ^ 31) ≤ ratTrunc ((e : ℚ) * q) →
      ratTrunc ((e : ℚ) * q) ≤ 2 ^ 31 - 1 →
      diffuseAmount e q = ratTrunc ((e : ℚ) * q)) ∧
    (∀ (w h x y : ℕ) (err : Pix) (b : List Pix) (dx dy : ℤ) (q : ℚ),
      ¬ (0 < ((x : ℤ) + dx) % 2 ^ 32 ∧ ((x : ℤ) + dx) % 2 ^ 32 < (w : ℤ) - 1 ∧
        0 < ((y : ℤ) + dy) % 2 ^ 32 ∧ ((y : ℤ) + dy) % 2 ^ 32 < (h : ℤ) - 1) →
      diffuseSpread w h x y err b (dx, dy, q) = b) := by
  refine ⟨?_, ?_, ?_⟩
  · intro w h x y err b dx dy q hg hlen
    unfold diffuseSpread
    dsimp only
    rw [if_pos hg]
    exact getPix_set_self b _ _ hlen
  · intro e q h1 h2
    unfold diffuseAmount
    exact castF64toI32_eq h1 h2
  · intro w h x y err b dx dy q hg
    unfold diffuseSpread
    dsimp only
    rw [if_neg hg]

/-- Witness for C2: the amount for error 5 and weight 3/4 is the
truncation of 15/4; an out-of-bounds entry leaves the buffer unchanged;
and the 3×3 interior target receives exactly the wrapped addition of the
truncated amount. -/
theorem c2_witness :
    diffuseAmount 5 (3 / 4) = ratTrunc ((5 : ℚ) * (3 / 4)) ∧
    diffuseSpread 1 1 0 0 (0, 0, 0) [] (5, 5, 1) = [] ∧
    getPix (diffuseSpread 3 3 2 2 (5, 5, 5)
        (List.replicate 9 ((0 : ℤ), (0 : ℤ), (0 : ℤ))) (-1, -1, 3 / 4))
        (idxU32 3 ((((2 : ℕ) : ℤ) + -1) % 2 ^ 32).toNat
          ((((2 : ℕ) : ℤ) + -1) % 2 ^ 32).toNat)
      = (wrap32 ((getPix (List.replicate 9 ((0 : ℤ), (0 : ℤ), (0 : ℤ)))
            (idxU32 3 ((((2 : ℕ) : ℤ) + -1) % 2 ^ 32).toNat
              ((((2 : ℕ) : ℤ) + -1) % 2 ^ 32).toNat)).1
            + diffuseAmount ((5 : ℤ), (5 : ℤ), (5 : ℤ)).1 (3 / 4)),
         wrap32 ((getPix (List.replicate 9 ((0 : ℤ), (0 : ℤ), (0 : ℤ)))
            (idxU32 3 ((((2 : ℕ) : ℤ) + -1) % 2 ^ 32).toNat
              ((((2 : ℕ) : ℤ) + -1) % 2 ^ 32).toNat)).2.1
            + diffuseAmount ((5 : ℤ), (5 : ℤ), (5 : ℤ)).2.1 (3 / 4)),
         wrap32 ((getPix (List.replicate 9 ((0 : ℤ), (0 : ℤ), (0 : ℤ)))
            (idxU32 3 ((((2 : ℕ) : ℤ) + -1) % 2 ^ 32).toNat
              ((((2 : ℕ) : ℤ) + -1) % 2 ^ 32).toNat)).2.2
            + diffuseAmount ((5 : ℤ), (5 : ℤ), (5 : ℤ)).2.2 (3 / 4))) := by
  refine ⟨?_, ?_, ?_⟩
  · exact c2_theorem.2.1 5 (3 / 4) (by norm_num [ratTrunc])
      (by norm_num [ratTrunc])
  · exact c2_theorem.2.2 1 1 0 0 (0, 0, 0) [] 5 5 1 (by decide)
  · exact c2_theorem.1 3 3 2 2 (5, 5, 5)
      (List.replicate 9 ((0 : ℤ), (0 : ℤ), (0 : ℤ))) (-1) (-1) (3 / 4)
      (by decide) (by decide)
